import Mathlib

/-!
Verification development for the paving estimator core.

Shallow embedding of the JavaScript source over `ℚ` (JS numbers are IEEE
doubles; all computations exercised here are exact on the rationals, so `ℚ`
is the faithful idealization).  Each definition mirrors one function of the
source; comments name the source file.
-/

/- The Batteries rational-arithmetic kernels are `@[irreducible]`, which
blocks `decide` on concrete `ℚ` computations; restore default reducibility
for this file so concrete runs of the embedded program kernel-evaluate. -/
attribute [local semireducible] Rat.add Rat.sub Rat.mul Rat.inv

namespace Paving

/-! ## Shift constants (`www/js/data/constants.js`, `SHIFT_CONSTANTS`) -/

def BILLING_INCREMENTS : List ℚ := [4, 6, 8, 10, 12]

def HUSTLE_THRESHOLD : ℚ := 1/2

/-! ## Shift Buffer Zone Optimizer (`ShiftOptimizer.js`, src/unnamed/part_006) -/

structure SnapResult where
  hours : ℚ
  hustle : Bool
  hustleAmount : ℚ
deriving DecidableEq, Repr

/-- The `for (const inc of increments)` loop body of `snapWithHustle`:
both checks for the current increment are made before moving on. -/
def snapLoop (hours threshold : ℚ) : List ℚ → Option SnapResult
  | [] => none
  | inc :: rest =>
    if hours ≤ inc then some ⟨inc, false, 0⟩
    else if hours ≤ inc + threshold then some ⟨inc, true, hours - inc⟩
    else snapLoop hours threshold rest

/-- `snapWithHustle(hours, stdShift)`.  The `stdShift` parameter is unused in
the source body as well; the increments/threshold come from `SHIFT_CONSTANTS`.
Past the largest increment the source rounds up with
`Math.ceil(hours / maxInc) * maxInc`. -/
def snapWithHustle (hours : ℚ) (stdShift : ℚ := 8) : SnapResult :=
  if hours ≤ 0 then ⟨0, false, 0⟩
  else
    match snapLoop hours HUSTLE_THRESHOLD BILLING_INCREMENTS with
    | some r => r
    | none =>
      let maxInc := BILLING_INCREMENTS.getLastD 0
      ⟨((⌈hours / maxInc⌉ : ℤ) : ℚ) * maxInc, false, 0⟩

structure ShiftCandidate where
  hours : ℚ
  days : ℚ
  hustle : Bool
  hustleAmount : ℚ
  shiftBase : ℚ
deriving DecidableEq, Repr

/-- `_buildCandidate(rawHours, shiftBase)`. -/
def buildCandidate (rawHours shiftBase : ℚ) : ShiftCandidate :=
  let fullDays : ℤ := ⌊rawHours / shiftBase⌋
  let remainder : ℚ := rawHours - (fullDays : ℚ) * shiftBase
  if remainder ≤ 0 ∧ 0 < fullDays then
    ⟨(fullDays : ℚ) * shiftBase, (fullDays : ℚ), false, 0, shiftBase⟩
  else if fullDays = 0 then
    let snapped := snapWithHustle remainder shiftBase
    ⟨snapped.hours, 1, snapped.hustle, snapped.hustleAmount, shiftBase⟩
  else
    let lastDaySnapped := snapWithHustle (shiftBase + remainder) shiftBase
    let partialSnapped := snapWithHustle remainder shiftBase
    let optionA_total := ((fullDays : ℚ) - 1) * shiftBase + lastDaySnapped.hours
    let optionB_total := (fullDays : ℚ) * shiftBase + partialSnapped.hours
    if optionA_total ≤ optionB_total then
      ⟨optionA_total, (fullDays : ℚ), lastDaySnapped.hustle, lastDaySnapped.hustleAmount, shiftBase⟩
    else
      ⟨optionB_total, (fullDays : ℚ) + 1, partialSnapped.hustle, partialSnapped.hustleAmount, shiftBase⟩

/-- The `if (c.days < minDays)` redistribution applied to each candidate in
`optimizeShifts` (snapping uses `stdShift`, as in the source). -/
def enforceMinDays (rawHours stdShift minDays : ℚ) (c : ShiftCandidate) : ShiftCandidate :=
  if c.days < minDays then
    let hoursPerDay := rawHours / minDays
    let snapped := snapWithHustle hoursPerDay stdShift
    { c with days := minDays, hours := snapped.hours * minDays,
             hustle := snapped.hustle, hustleAmount := snapped.hustleAmount }
  else c

/-- `optimizeShifts(rawHours, stdShift, maxShift, minDays)`.  The source
collects one or two candidates, applies the min-days fix, stable-sorts by
`hours` and returns the head; for a two-element list that is: the max-shift
candidate wins only when its hours are strictly smaller. -/
def optimizeShifts (rawHours : ℚ) (stdShift : ℚ := 8) (maxShift : ℚ := 12)
    (minDays : ℚ := 1) : ShiftCandidate :=
  if rawHours ≤ 0 then ⟨0, 0, false, 0, stdShift⟩
  else
    let c1 := enforceMinDays rawHours stdShift minDays (buildCandidate rawHours stdShift)
    if maxShift ≠ stdShift then
      let c2 := enforceMinDays rawHours stdShift minDays (buildCandidate rawHours maxShift)
      if c2.hours < c1.hours then c2 else c1
    else c1

/-! ## Three-Tier Production Model (`ThreeTier.js`) -/

/-- The three fields of the optimizer record that the three-tier result
carries forward (`hours`, `days`, `hustle` are the ones the all-zero guard
result of `calcThreeTier` also populates). -/
structure TierOptimized where
  hours : ℚ
  days : ℚ
  hustle : Bool
deriving DecidableEq, Repr

structure TierResult where
  /-- `multiplier`/`adjustedRate` are absent (undefined) on the guard path. -/
  multiplier : Option ℚ
  adjustedRate : Option ℚ
  rawDays : ℚ
  rawHours : ℚ
  optimized : TierOptimized
deriving DecidableEq, Repr

/-- `Object.entries(TIER_MULTIPLIERS)` iterates conservative, standard,
aggressive (`paving-defaults.js`, multipliers 0.80 / 1.00 / 1.20). -/
structure ThreeTierResult where
  conservative : TierResult
  standard : TierResult
  aggressive : TierResult
deriving DecidableEq, Repr

def emptyTier : TierResult := ⟨none, none, 0, 0, ⟨0, 0, false⟩⟩

/-- One iteration of the tier loop in `calcThreeTier`. -/
def calcTier (grossQty prodPerDay productivityFactor stdShift maxShift mult : ℚ) : TierResult :=
  let adjustedRate := prodPerDay * productivityFactor * mult
  let rawDays := grossQty / adjustedRate
  let rawHours := rawDays * stdShift
  let o := optimizeShifts rawHours stdShift maxShift 1
  ⟨some mult, some adjustedRate, rawDays, rawHours, ⟨o.hours, o.days, o.hustle⟩⟩

/-- `calcThreeTier(grossQty, prodPerDay, productivityFactor, stdShift, maxShift)`.
The JS guard `!grossQty || !prodPerDay || prodPerDay <= 0` (0 is falsy). -/
def calcThreeTier (grossQty prodPerDay productivityFactor : ℚ)
    (stdShift : ℚ := 8) (maxShift : ℚ := 12) : ThreeTierResult :=
  if grossQty = 0 ∨ prodPerDay = 0 ∨ prodPerDay ≤ 0 then
    ⟨emptyTier, emptyTier, emptyTier⟩
  else
    ⟨calcTier grossQty prodPerDay productivityFactor stdShift maxShift (4/5),
     calcTier grossQty prodPerDay productivityFactor stdShift maxShift 1,
     calcTier grossQty prodPerDay productivityFactor stdShift maxShift (6/5)⟩

/-! ## CPM Scheduler (`Scheduler.js`, src/unnamed/part_004)

Activity ids are modelled as `ℕ` (opaque identifiers in the source).  The
results `Map` is modelled as a total function `ℕ → SchedEntry`: `run()`
initializes an all-zero entry for every activity id before any pass, and the
passes only ever write at ids of activities, so the key set is exactly the
activity-id set; the explicit membership test below mirrors the
`if (!predResult) continue` guard for dangling predecessor ids. -/

inductive DepType
  | FS | SS | FF | SF
deriving DecidableEq, Repr

structure Dependency where
  predecessorId : ℕ
  depType : DepType
  lag : ℚ
deriving DecidableEq, Repr

structure Activity where
  id : ℕ
  duration : ℚ
  dependencies : List Dependency
deriving DecidableEq, Repr

structure SchedEntry where
  earlyStart : ℚ
  earlyFinish : ℚ
  lateStart : ℚ
  lateFinish : ℚ
  totalFloat : ℚ
  freeFloat : ℚ
deriving DecidableEq, Repr

def SchedEntry.init : SchedEntry := ⟨0, 0, 0, 0, 0, 0⟩

abbrev RMap := ℕ → SchedEntry

def RMap.set (m : RMap) (id : ℕ) (e : SchedEntry) : RMap :=
  fun j => if j = id then e else m j

def actIds (acts : List Activity) : List ℕ := acts.map (·.id)

/-- The `inDegree` / `adjList` construction of `_topologicalSort` (edges
whose predecessor id is not a known activity id are skipped). -/
def buildInOut (acts : List Activity) : (ℕ → ℤ) × (ℕ → List ℕ) :=
  acts.foldl (fun st a =>
    a.dependencies.foldl (fun st dep =>
      if dep.predecessorId ∈ actIds acts then
        (fun j => if j = a.id then st.1 j + 1 else st.1 j,
         fun j => if j = dep.predecessorId then st.2 j ++ [a.id] else st.2 j)
      else st) st)
    (fun _ => (0 : ℤ), fun _ => ([] : List ℕ))

/-- Processing one popped id in Kahn's algorithm: decrement each successor's
in-degree, enqueueing it when the degree reaches zero. -/
def kahnStep (adj : ℕ → List ℕ) (id : ℕ) (st : (ℕ → ℤ) × List ℕ) : (ℕ → ℤ) × List ℕ :=
  (adj id).foldl (fun st succId =>
    let nd := st.1 succId - 1
    (fun j => if j = succId then nd else st.1 j,
     if nd = 0 then st.2 ++ [succId] else st.2)) st

/-- The `while (queue.length > 0)` loop, with fuel.  Each id is enqueued at
most once (a tracked in-degree reaches zero at most once), so at most
`acts.length` pops ever happen and fuel `acts.length` is exact. -/
def kahnLoop (adj : ℕ → List ℕ) : ℕ → (ℕ → ℤ) → List ℕ → List ℕ
  | 0, _, _ => []
  | _ + 1, _, [] => []
  | fuel + 1, deg, id :: rest =>
    let st := kahnStep adj id (deg, rest)
    id :: kahnLoop adj fuel st.1 st.2

/-- `activityMap.get(id)`: the `Map` constructor keeps the last entry for a
duplicated key, hence the reverse search. -/
def lookupAct (acts : List Activity) (id : ℕ) : Option Activity :=
  acts.reverse.find? (fun a => a.id == id)

/-- `Scheduler._topologicalSort()`: Kahn's algorithm; on failure to order
every activity (a cycle), fall back to the input order. -/
def topologicalSort (acts : List Activity) : List Activity :=
  let st := buildInOut acts
  let queue := (actIds acts).filter (fun id => st.1 id == 0)
  let popped := kahnLoop st.2 acts.length st.1 queue
  let sorted := popped.filterMap (lookupAct acts)
  if sorted.length = acts.length then sorted else acts

/-- One dependency's contribution to the early-start accumulator
(`switch (dep.type)` in `_forwardPass`). -/
def forwardDepES (m : RMap) (duration es : ℚ) (dep : Dependency) : ℚ :=
  let pr := m dep.predecessorId
  match dep.depType with
  | .FS => max es (pr.earlyFinish + dep.lag)
  | .SS => max es (pr.earlyStart + dep.lag)
  | .FF => max es (pr.earlyFinish + dep.lag - duration)
  | .SF => max es (pr.earlyStart + dep.lag - duration)

def forwardStep (keys : List ℕ) (m : RMap) (a : Activity) : RMap :=
  let es := a.dependencies.foldl (fun es dep =>
      if dep.predecessorId ∈ keys then forwardDepES m a.duration es dep else es) 0
  let es := max 0 es
  RMap.set m a.id { m a.id with earlyStart := es, earlyFinish := es + a.duration }

/-- `Scheduler._forwardPass()`. -/
def forwardPass (acts : List Activity) (m : RMap) : RMap :=
  (topologicalSort acts).foldl (forwardStep (actIds acts)) m

/-- `get projectDuration()`: max early finish over the results map.  The JS
`Map` iterates one entry per distinct key; folding over the id list with
possible duplicates yields the same maximum. -/
def projectDuration (acts : List Activity) (m : RMap) : ℚ :=
  (actIds acts).foldl (fun acc id => max acc (m id).earlyFinish) 0

structure SuccEdge where
  activity : Activity
  depType : DepType
  lag : ℚ
deriving Repr

/-- The successor map of `_backwardPass`, read at one id: entries appear in
(activity, dependency) iteration order, as pushed by the source. -/
def successorsOf (acts : List Activity) (id : ℕ) : List SuccEdge :=
  List.join (acts.map (fun a => a.dependencies.filterMap (fun dep =>
    if dep.predecessorId = id then some ⟨a, dep.depType, dep.lag⟩ else none)))

/-- The initialization loop of `_backwardPass` (every late finish seeded with
the project end). -/
def backwardInit (pe : ℚ) (m : RMap) (acts : List Activity) : RMap :=
  acts.foldl (fun m a =>
    RMap.set m a.id { m a.id with lateFinish := pe, lateStart := pe - a.duration }) m

/-- The `for (const succ of succs)` min-fold of `_backwardPass`. -/
def backwardLF (m : RMap) (duration pe : ℚ) (succs : List SuccEdge) : ℚ :=
  succs.foldl (fun lf s =>
    let sr := m s.activity.id
    match s.depType with
    | .FS => min lf (sr.lateStart - s.lag)
    | .SS => min lf (sr.lateStart - s.lag + duration)
    | .FF => min lf (sr.lateFinish - s.lag)
    | .SF => min lf (sr.lateFinish - s.lag + duration)) pe

def backwardStep (acts : List Activity) (pe : ℚ) (m : RMap) (a : Activity) : RMap :=
  let succs := successorsOf acts a.id
  if succs.isEmpty then m
  else
    let lf := backwardLF m a.duration pe succs
    RMap.set m a.id { m a.id with lateFinish := lf, lateStart := lf - a.duration }

/-- `Scheduler._backwardPass()` (project end captured before the pass). -/
def backwardPass (acts : List Activity) (m : RMap) : RMap :=
  let pe := projectDuration acts m
  ((topologicalSort acts).reverse).foldl (backwardStep acts pe) (backwardInit pe m acts)

/-- The successor map of `_calculateFloat` (activities only, one entry per
matching dependency). -/
def actSuccessors (acts : List Activity) (id : ℕ) : List Activity :=
  List.join (acts.map (fun a => a.dependencies.filterMap (fun dep =>
    if dep.predecessorId = id then some a else none)))

/-- One iteration of `_calculateFloat`; `pd` is `this.projectDuration`,
constant during the pass since early finishes are not written here. -/
def floatStep (acts : List Activity) (pd : ℚ) (m : RMap) (a : Activity) : RMap :=
  let r := m a.id
  let tf := r.lateStart - r.earlyStart
  let succs := actSuccessors acts a.id
  let ffVal : ℚ :=
    match succs with
    | [] => pd - r.earlyFinish
    | s :: rest =>
      (rest.foldl (fun acc s2 => min acc (m s2.id).earlyStart) (m s.id).earlyStart)
        - r.earlyFinish
  RMap.set m a.id { r with totalFloat := tf, freeFloat := ffVal }

def calculateFloat (acts : List Activity) (m : RMap) : RMap :=
  acts.foldl (floatStep acts (projectDuration acts m)) m

/-- `Scheduler.run()`. -/
def schedulerRun (acts : List Activity) : RMap :=
  if acts.isEmpty then fun _ => SchedEntry.init
  else calculateFloat acts (backwardPass acts (forwardPass acts (fun _ => SchedEntry.init)))

def schedulerProjectDuration (acts : List Activity) : ℚ :=
  projectDuration acts (schedulerRun acts)

/-- `get criticalPath()`: activities with |total float| < 0.001 and positive
duration, in activity order. -/
def criticalPath (acts : List Activity) : List ℕ :=
  let m := schedulerRun acts
  acts.filterMap (fun a =>
    if |(m a.id).totalFloat| < 1/1000 ∧ 0 < a.duration then some a.id else none)

/-- `getNearCritical(floatThreshold)`. -/
def getNearCritical (acts : List Activity) (floatThreshold : ℚ := 1) : List ℕ :=
  let m := schedulerRun acts
  acts.filterMap (fun a =>
    if 0 < (m a.id).totalFloat ∧ (m a.id).totalFloat ≤ floatThreshold ∧ 0 < a.duration
    then some a.id else none)

/-! ## Monte Carlo simulator (`MonteCarlo.js`)

`Math.random()` draws are passed in explicitly (`u`); `Math.sqrt` is passed
as an oracle function `sqrtF` — the degenerate branches settled here never
reach it. -/

structure MCVar where
  min : ℚ
  mostLikely : ℚ
  max : ℚ
  weight : ℚ
deriving DecidableEq, Repr

/-- `MonteCarlo.samplePERT(min, mostLikely, max)`: the JS guards are
`if (min === max) return min; if (min >= max) return mostLikely;` in that
order, then the triangular inverse-CDF branch. -/
def samplePERT (sqrtF : ℚ → ℚ) (u mn mostLikely mx : ℚ) : ℚ :=
  if mn = mx then mn
  else if mx ≤ mn then mostLikely
  else
    let fc := (mostLikely - mn) / (mx - mn)
    if u < fc then mn + sqrtF (u * (mx - mn) * (mostLikely - mn))
    else mx - sqrtF ((1 - u) * (mx - mn) * (mx - mostLikely))

/-- The inner `for (const v of variables)` accumulation of one iteration of
`MonteCarlo.run` (`j` indexes the draw used for each variable). -/
def mcIterTotal (sqrtF : ℚ → ℚ) (u : ℕ → ℚ) (baseEstimate : ℚ) : ℚ → ℕ → List MCVar → ℚ
  | acc, _, [] => acc
  | acc, j, v :: rest =>
    let sampled := samplePERT sqrtF (u j) v.min v.mostLikely v.max
    let ratio := if 0 < v.mostLikely then sampled / v.mostLikely else 1
    mcIterTotal sqrtF u baseEstimate (acc + v.weight * baseEstimate * ratio) (j + 1) rest

/-- The iteration loop of `MonteCarlo.run`, returning the pre-analysis
`results` array (`u i j` is the draw for variable `j` of iteration `i`). -/
def mcRun (sqrtF : ℚ → ℚ) (u : ℕ → ℕ → ℚ) (iterations : ℕ) (baseEstimate : ℚ)
    (vars : List MCVar) : List ℚ :=
  (List.range iterations).map (fun i => mcIterTotal sqrtF (u i) baseEstimate 0 0 vars)

/-! ## Benchmark data and unit-cost status (`paving-defaults.js`, `Confidence.js`,
`Calculator.js`) -/

structure Benchmark where
  p25 : ℚ
  median : ℚ
  p75 : ℚ
  n : ℕ
  basis : String
  unit : String
deriving DecidableEq, Repr

/-- `BENCHMARKS.parking_lot`. -/
def parkingLotBenchmarks : List (String × Benchmark) :=
  [("excavation",     ⟨12,      18,      28,      19,  "empirical", "CY"⟩),
   ("fine_grading",   ⟨77/100,  92/100,  112/100, 507, "empirical", "SY"⟩),
   ("dga_base",       ⟨35,      50,      70,      103, "empirical", "CY"⟩),
   ("milling",        ⟨295/100, 364/100, 458/100, 516, "empirical", "SY"⟩),
   ("paving_base",    ⟨2231/100, 2810/100, 3526/100, 162, "empirical", "SY"⟩),
   ("paving_surface", ⟨1030/100, 1109/100, 1225/100, 163, "empirical", "SY"⟩),
   ("tack_coat",      ⟨15/100,  22/100,  35/100,  0,   "derived",   "SY"⟩)]

/-- `BENCHMARKS.roadway`. -/
def roadwayBenchmarks : List (String × Benchmark) :=
  [("excavation",     ⟨8,       12,      20,      0, "derived", "CY"⟩),
   ("fine_grading",   ⟨60/100,  85/100,  120/100, 0, "derived", "SY"⟩),
   ("dga_base",       ⟨30,      42,      60,      0, "derived", "CY"⟩),
   ("milling",        ⟨150/100, 182/100, 250/100, 0, "derived", "SY"⟩),
   ("paving_base",    ⟨8,       115/10,  16,      0, "derived", "SY"⟩),
   ("paving_surface", ⟨6,       85/10,   12,      0, "derived", "SY"⟩),
   ("tack_coat",      ⟨10/100,  18/100,  30/100,  0, "derived", "SY"⟩)]

/-- `BENCHMARKS[jobMode] || BENCHMARKS.parking_lot`. -/
def benchmarksFor (jobMode : String) : List (String × Benchmark) :=
  if jobMode = "parking_lot" then parkingLotBenchmarks
  else if jobMode = "roadway" then roadwayBenchmarks
  else parkingLotBenchmarks

structure QtyRange where
  low : ℚ
  high : ℚ
deriving DecidableEq, Repr

/-- `QTY_RANGES.parking_lot`. -/
def parkingLotQtyRanges : List (String × QtyRange) :=
  [("excavation", ⟨50, 2000⟩), ("fine_grading", ⟨500, 15000⟩),
   ("dga_base", ⟨200, 12000⟩), ("milling", ⟨500, 20000⟩),
   ("paving_base", ⟨200, 12000⟩), ("paving_surface", ⟨500, 25000⟩),
   ("tack_coat", ⟨500, 25000⟩)]

/-- `QTY_RANGES.roadway`. -/
def roadwayQtyRanges : List (String × QtyRange) :=
  [("excavation", ⟨200, 10000⟩), ("fine_grading", ⟨2000, 50000⟩),
   ("dga_base", ⟨1000, 30000⟩), ("milling", ⟨2000, 80000⟩),
   ("paving_base", ⟨1000, 30000⟩), ("paving_surface", ⟨2000, 80000⟩),
   ("tack_coat", ⟨2000, 80000⟩)]

def qtyRangesFor (jobMode : String) : List (String × QtyRange) :=
  if jobMode = "parking_lot" then parkingLotQtyRanges
  else if jobMode = "roadway" then roadwayQtyRanges
  else parkingLotQtyRanges

structure RateConf where
  band : ℚ
  score : ℚ
deriving DecidableEq, Repr

/-- `RATE_CONFIDENCE`. -/
def RATE_CONFIDENCE : List (String × RateConf) :=
  [("excavation", ⟨35, 65/100⟩), ("fine_grading", ⟨15, 85/100⟩),
   ("dga_base", ⟨25, 75/100⟩), ("milling", ⟨15, 85/100⟩),
   ("paving_base", ⟨20, 80/100⟩), ("paving_surface", ⟨15, 85/100⟩),
   ("tack_coat", ⟨10, 90/100⟩)]

/-- `_getUnitCostStatus(unitCost, benchmark)` (`Confidence.js`). -/
def getUnitCostStatus (unitCost : ℚ) (benchmark : Benchmark) : String :=
  if benchmark.p25 ≤ unitCost ∧ unitCost ≤ benchmark.p75 then "IN_RANGE"
  else if unitCost < benchmark.p25 * (1/2) then "VERY_LOW"
  else if unitCost < benchmark.p25 then "LOW"
  else if benchmark.p75 * (3/2) < unitCost then "VERY_HIGH"
  else if benchmark.p75 < unitCost then "HIGH"
  else "IN_RANGE"

/-- The inline Phase-8 classification of `Calculator.calculate` (default
`IN_RANGE`, overwritten by the first matching band). -/
def unitCheckStatus (unitCost p25 p75 : ℚ) : String :=
  if unitCost < p25 * (1/2) then "VERY_LOW"
  else if unitCost < p25 then "LOW"
  else if p75 * (3/2) < unitCost then "VERY_HIGH"
  else if p75 < unitCost then "HIGH"
  else "IN_RANGE"

/-! ## Confidence scorer (`Confidence.js`)

The snapshot activity carries the four fields the scorer reads; the `details`
arrays built alongside each sub-score are display metadata that never feed
back into any score and are not modelled. -/

structure ConfActivity where
  activityType : String
  unitCost : ℚ
  grossQuantity : ℚ
  duration : ℚ
  directCost : ℚ
deriving DecidableEq, Repr

structure ConfSnapshot where
  activities : List ConfActivity
  jobMode : String
deriving DecidableEq, Repr

structure ConfidenceScore where
  prodReliability : ℚ
  benchAlignment : ℚ
  scopeDefinition : ℚ
  dataQuality : ℚ
  composite : ℚ
  descriptor : String
deriving DecidableEq, Repr

/-- `CONFIDENCE_WEIGHTS` (`paving-defaults.js`). -/
def CONFIDENCE_WEIGHTS : ℚ × ℚ × ℚ × ℚ := (35/100, 30/100, 20/100, 15/100)

/-- `_calcProductionReliability`: cost-weighted average of the static
per-type scores; JS weight is `a.directCost || 1`. -/
def calcProductionReliability (acts : List ConfActivity) : ℚ :=
  let st := acts.foldl (fun (st : ℚ × ℚ) (a : ConfActivity) =>
    match RATE_CONFIDENCE.lookup a.activityType with
    | none => st
    | some conf =>
      let weight := if a.directCost = 0 then (1 : ℚ) else a.directCost
      (st.1 + conf.score * weight, st.2 + weight)) (0, 0)
  if 0 < st.2 then st.1 / st.2 else 1/2

/-- `_calcBenchmarkAlignment`: fraction of counted activities whose status is
`IN_RANGE`; JS skip guard `!bm || !a.unitCost || a.unitCost <= 0`. -/
def calcBenchmarkAlignment (acts : List ConfActivity)
    (benchmarks : List (String × Benchmark)) : ℚ :=
  let st := acts.foldl (fun (st : ℕ × ℕ) (a : ConfActivity) =>
    match benchmarks.lookup a.activityType with
    | none => st
    | some bm =>
      if a.unitCost = 0 ∨ a.unitCost ≤ 0 then st
      else (if getUnitCostStatus a.unitCost bm = "IN_RANGE" then st.1 + 1 else st.1,
            st.2 + 1)) (0, 0)
  if 0 < st.2 then (st.1 : ℚ) / (st.2 : ℚ) else 1/2

/-- `_calcScopeDefinition`; JS skip guard `!range || !a.grossQuantity`. -/
def calcScopeDefinition (acts : List ConfActivity)
    (qtyRanges : List (String × QtyRange)) : ℚ :=
  let st := acts.foldl (fun (st : ℕ × ℕ) (a : ConfActivity) =>
    match qtyRanges.lookup a.activityType with
    | none => st
    | some range =>
      if a.grossQuantity = 0 then st
      else (if range.low ≤ a.grossQuantity ∧ a.grossQuantity ≤ range.high
            then st.1 + 1 else st.1,
            st.2 + 1)) (0, 0)
  if 0 < st.2 then (st.1 : ℚ) / (st.2 : ℚ) else 1/2

/-- The sample-size tiering of `_calcDataQuality`. -/
def dataQualityScore (n : ℕ) : ℚ :=
  if 30 ≤ n then 1
  else if 15 ≤ n then 8/10
  else if 5 ≤ n then 6/10
  else if 0 < n then 4/10
  else 2/10

/-- `_calcDataQuality`. -/
def calcDataQuality (acts : List ConfActivity)
    (benchmarks : List (String × Benchmark)) : ℚ :=
  let st := acts.foldl (fun (st : ℚ × ℕ) (a : ConfActivity) =>
    match benchmarks.lookup a.activityType with
    | none => st
    | some bm => (st.1 + dataQualityScore bm.n, st.2 + 1)) (0, 0)
  if 0 < st.2 then st.1 / (st.2 : ℚ) else 2/10

/-- `_getDescriptor(composite)`. -/
def getDescriptor (composite : ℚ) : String :=
  if 80/100 ≤ composite then "HIGH"
  else if 65/100 ≤ composite then "MOD-HIGH"
  else if 50/100 ≤ composite then "MODERATE"
  else "LOW"

/-- `_emptyResult()`. -/
def emptyConfidence : ConfidenceScore := ⟨0, 0, 0, 0, 0, "LOW"⟩

/-- `calculateConfidence(snapshot)`. -/
def calculateConfidence (snapshot : ConfSnapshot) : ConfidenceScore :=
  let activeActivities := snapshot.activities.filter (fun a => 0 < a.duration)
  if activeActivities.isEmpty then emptyConfidence
  else
    let benchmarks := benchmarksFor snapshot.jobMode
    let qtyRanges := qtyRangesFor snapshot.jobMode
    let pr := calcProductionReliability activeActivities
    let ba := calcBenchmarkAlignment activeActivities benchmarks
    let sd := calcScopeDefinition activeActivities qtyRanges
    let dq := calcDataQuality activeActivities benchmarks
    let composite := pr * CONFIDENCE_WEIGHTS.1 + ba * CONFIDENCE_WEIGHTS.2.1 +
      sd * CONFIDENCE_WEIGHTS.2.2.1 + dq * CONFIDENCE_WEIGHTS.2.2.2
    ⟨pr, ba, sd, dq, composite, getDescriptor composite⟩

/-! ## Trucking-override patch (`main.js`, `calculateWithTruckingOverrides`)

The patch step that reruns over already-calculated results.  The estimate
side is modelled as a lookup from activity id to the two fields the patch
reads (`_truckingQuantityOverride`, with 0 for the JS-falsy absent case, and
the `trucking` parameter object).  `CONSTANTS.WORKDAY_MINUTES = 480`,
`CONSTANTS.WORKDAY_HOURS = 8`. -/

structure TruckingParams where
  cycleTime : ℚ
  truckCapacity : ℚ
  efficiency : ℚ
deriving DecidableEq, Repr

structure EstActivity where
  truckingQuantityOverride : ℚ
  trucking : Option TruckingParams
deriving DecidableEq, Repr

structure ActivityResult where
  id : ℕ
  laborCost : ℚ
  equipmentCost : ℚ
  materialCost : ℚ
  mobilizationCost : ℚ
  truckingCost : ℚ
  trucks : ℚ
  truckHours : ℚ
  directCost : ℚ
  duration : ℚ
deriving DecidableEq, Repr

structure CalcResults where
  activities : List ActivityResult
  totalTruckingCost : ℚ
  totalTruckHours : ℚ
  directCostTotal : ℚ
deriving DecidableEq, Repr

/-- The per-activity body of the patch loop. -/
def patchActivity (est : ℕ → Option EstActivity) (truckingRate : ℚ)
    (ar : ActivityResult) : ActivityResult :=
  match est ar.id with
  | none => ar
  | some activity =>
    if activity.truckingQuantityOverride ≠ 0 then
      match activity.trucking with
      | none => ar
      | some t =>
        let totalQty := activity.truckingQuantityOverride
        let duration := ar.duration
        if 0 < duration ∧ 0 < totalQty then
          let dailyQty := totalQty / duration
          let loadsPerDay := dailyQty / t.truckCapacity
          let efficiency := if t.efficiency = 0 then 9/10 else t.efficiency
          let trucks : ℚ := ((⌈loadsPerDay * t.cycleTime / (480 * efficiency)⌉ : ℤ) : ℚ)
          let truckHours : ℚ := ((⌈trucks * duration * 8⌉ : ℤ) : ℚ)
          let truckCost := truckHours * truckingRate
          { ar with trucks := trucks, truckHours := truckHours, truckingCost := truckCost,
                    directCost := ar.laborCost + ar.equipmentCost + ar.materialCost +
                                  ar.mobilizationCost + truckCost }
        else ar
    else ar

/-- The whole patch step: per-activity recomputation with delta updates of
the trucking totals, then the full recomputation of `directCostTotal`
(`results.activities.reduce(...)`). -/
def patchResults (est : ℕ → Option EstActivity) (truckingRate : ℚ)
    (res : CalcResults) : CalcResults :=
  let st := res.activities.foldl (fun (st : List ActivityResult × ℚ × ℚ) ar =>
    let ar2 := patchActivity est truckingRate ar
    (st.1 ++ [ar2],
     st.2.1 + (ar2.truckingCost - ar.truckingCost),
     st.2.2 + (ar2.truckHours - ar.truckHours)))
    ([], res.totalTruckingCost, res.totalTruckHours)
  let directCostTotal := st.1.foldl (fun sum ar =>
    sum + ar.laborCost + ar.equipmentCost + ar.materialCost +
      ar.mobilizationCost + ar.truckingCost) 0
  ⟨st.1, st.2.1, st.2.2, directCostTotal⟩

/-! ## Concrete fixtures and proof-side predicates -/

/-- The spec's end-to-end scenario: A (duration 2), B (duration 3,
Finish-Start on A, lag 0), C (duration 4, independent); ids 1, 2, 3. -/
def chainParallelActs : List Activity :=
  [⟨1, 2, []⟩, ⟨2, 3, [⟨1, .FS, 0⟩]⟩, ⟨3, 4, []⟩]

/-- Loop invariant of Kahn's algorithm: ids already popped (`seen`) plus the
queue are distinct known ids with non-positive tracked in-degree, while every
id never enqueued still has strictly positive tracked in-degree. -/
def KahnInv (ids : List ℕ) (deg : ℕ → ℤ) (seen queue : List ℕ) : Prop :=
  (seen ++ queue).Nodup ∧ (∀ j ∈ seen ++ queue, j ∈ ids) ∧
  (∀ j ∈ ids, j ∉ seen ++ queue → 0 < deg j) ∧
  (∀ j ∈ seen ++ queue, deg j ≤ 0)

end Paving

namespace Paving

/-! # Theorems -/

/-- Claim C1: on the three-activity input (A: duration 2; B: duration 3 with
a single Finish-Start dependency on A, lag 0; C: duration 4, independent) the
Scheduler yields project duration 5 (the A+B chain, not the naive sum 9), a
critical path of exactly A and B, and total float 1 for C. -/
theorem claim_C1 :
    schedulerProjectDuration chainParallelActs = 5 ∧
    schedulerProjectDuration chainParallelActs ≠ 9 ∧
    criticalPath chainParallelActs = [1, 2] ∧
    (schedulerRun chainParallelActs 3).totalFloat = 1 := by
  set_option maxRecDepth 40000 in decide

/-- Claim C9: a zero/missing gross quantity, or a zero/missing/negative
production rate, makes `calcThreeTier` return the all-zero result for all
three tiers (the guard fires before any quotient is formed). -/
theorem claim_C9 (grossQty prodPerDay productivityFactor stdShift maxShift : ℚ)
    (h : grossQty = 0 ∨ prodPerDay ≤ 0) :
    calcThreeTier grossQty prodPerDay productivityFactor stdShift maxShift =
      ⟨emptyTier, emptyTier, emptyTier⟩ := by
  unfold calcThreeTier
  rcases h with h | h
  · rw [if_pos (Or.inl h)]
  · rw [if_pos (Or.inr (Or.inr h))]

theorem claim_C9_witness :
    ((0 : ℚ) = 0 ∨ (5 : ℚ) ≤ 0) ∧
    calcThreeTier 0 5 1 8 12 = ⟨emptyTier, emptyTier, emptyTier⟩ :=
  ⟨Or.inl rfl, claim_C9 0 5 1 8 12 (Or.inl rfl)⟩

/-- Claim C10: the critical path and the near-critical list only ever report
ids of activities with strictly positive duration (a zero-duration activity
with float within tolerance is filtered out by the `duration > 0` guard). -/
theorem claim_C10 (acts : List Activity) :
    (∀ id ∈ criticalPath acts, ∃ a ∈ acts, a.id = id ∧ 0 < a.duration) ∧
    (∀ floatThreshold : ℚ, ∀ id ∈ getNearCritical acts floatThreshold,
      ∃ a ∈ acts, a.id = id ∧ 0 < a.duration) := by
  constructor
  · intro id hid
    unfold criticalPath at hid
    obtain ⟨a, ha, hsome⟩ := List.mem_filterMap.1 hid
    by_cases hc : |(schedulerRun acts a.id).totalFloat| < 1/1000 ∧ 0 < a.duration
    · rw [if_pos hc] at hsome
      exact ⟨a, ha, Option.some_injective _ hsome, hc.2⟩
    · rw [if_neg hc] at hsome
      exact absurd hsome (by simp)
  · intro thr id hid
    unfold getNearCritical at hid
    obtain ⟨a, ha, hsome⟩ := List.mem_filterMap.1 hid
    by_cases hc : 0 < (schedulerRun acts a.id).totalFloat ∧
        (schedulerRun acts a.id).totalFloat ≤ thr ∧ 0 < a.duration
    · rw [if_pos hc] at hsome
      exact ⟨a, ha, Option.some_injective _ hsome, hc.2.2⟩
    · rw [if_neg hc] at hsome
      exact absurd hsome (by simp)

theorem claim_C10_witness :
    (∃ a ∈ chainParallelActs, a.id = 1 ∧ 0 < a.duration) ∧
    (∃ a ∈ chainParallelActs, a.id = 3 ∧ 0 < a.duration) :=
  ⟨(claim_C10 chainParallelActs).1 1 (by set_option maxRecDepth 40000 in decide),
   (claim_C10 chainParallelActs).2 1 3 (by set_option maxRecDepth 40000 in decide)⟩

/-- Claim C6: `samplePERT` returns `min` whenever `min = max` (independently
of the draw and of the square-root oracle), returns `mostLikely` on the
remaining malformed region `min > max` (the two guards are sequential:
equality is claimed by the first), and consequently every iteration total of
a run over the single variable (100, 100, 100, weight 1) against base 1000 is
exactly 1000. -/
theorem claim_C6 :
    (∀ (sqrtF : ℚ → ℚ) (u mn mostLikely : ℚ),
      samplePERT sqrtF u mn mostLikely mn = mn) ∧
    (∀ (sqrtF : ℚ → ℚ) (u mn mostLikely mx : ℚ), mx < mn →
      samplePERT sqrtF u mn mostLikely mx = mostLikely) ∧
    (∀ (sqrtF : ℚ → ℚ) (u : ℕ → ℕ → ℚ) (iterations : ℕ),
      ∀ x ∈ mcRun sqrtF u iterations 1000 [⟨100, 100, 100, 1⟩], x = 1000) := by
  refine ⟨fun sqrtF u mn ml => ?_, fun sqrtF u mn ml mx hlt => ?_, ?_⟩
  · simp [samplePERT]
  · rw [samplePERT, if_neg (ne_of_gt hlt), if_pos hlt.le]
  · intro sqrtF u iterations x hx
    simp only [mcRun, List.mem_map] at hx
    obtain ⟨i, -, rfl⟩ := hx
    simp [mcIterTotal, samplePERT]

theorem claim_C6_witness :
    samplePERT (fun x => x) (1/3) 5 7 5 = 5 ∧
    ((3 : ℚ) < 5 ∧ samplePERT (fun x => x) (1/3) 5 7 3 = 7) ∧
    ((1000 : ℚ) ∈ mcRun (fun x => x) (fun _ _ => 1/3) 1 1000 [⟨100, 100, 100, 1⟩] ∧
      (1000 : ℚ) = 1000) :=
  ⟨claim_C6.1 (fun x => x) (1/3) 5 7,
   ⟨by norm_num, claim_C6.2.1 (fun x => x) (1/3) 5 7 3 (by norm_num)⟩,
   ⟨by decide, claim_C6.2.2 (fun x => x) (fun _ _ => 1/3) 1 1000 (by decide)⟩⟩

/-- Claim C8 counterexample: the claim quantifies over every benchmark record
with `p25 ≤ p75` only.  At the record (p25, p75) = (-4, -3) and unit cost
-7/2 (which exceeds 1.5 x p75 = -9/2), the shared status function classifies
IN_RANGE (its p25..p75 band check fires first) and the Calculator inline
chain classifies VERY_LOW — neither is VERY_HIGH, so the claim as stated
fails. -/
theorem claim_C8_counterexample :
    ¬ (((-4 : ℚ) ≤ (-3 : ℚ) → (3/2) * (-3 : ℚ) < (-7/2 : ℚ) →
        getUnitCostStatus (-7/2) ⟨-4, -7/2, -3, 0, "derived", "SY"⟩ = "VERY_HIGH" ∧
        unitCheckStatus (-7/2) (-4) (-3) = "VERY_HIGH")) := by
  decide

/-- Claim C8, amended: for every benchmark record with 0 ≤ p25 ≤ p75 (all
records of the shipped tables satisfy this), a unit cost exactly equal to p75
is IN_RANGE and a unit cost strictly above 1.5 x p75 is VERY_HIGH, in both
the shared status function and the Calculator inline Phase-8 chain. -/
theorem claim_C8_amended (unitCost : ℚ) (bm : Benchmark)
    (h0 : 0 ≤ bm.p25) (h1 : bm.p25 ≤ bm.p75) :
    (unitCost = bm.p75 →
      getUnitCostStatus unitCost bm = "IN_RANGE" ∧
      unitCheckStatus unitCost bm.p25 bm.p75 = "IN_RANGE") ∧
    (bm.p75 * (3/2) < unitCost →
      getUnitCostStatus unitCost bm = "VERY_HIGH" ∧
      unitCheckStatus unitCost bm.p25 bm.p75 = "VERY_HIGH") := by
  have hp75 : 0 ≤ bm.p75 := le_trans h0 h1
  constructor
  · rintro rfl
    constructor
    · rw [getUnitCostStatus, if_pos ⟨h1, le_refl _⟩]
    · rw [unitCheckStatus, if_neg (by push_neg; linarith), if_neg (by push_neg; exact h1),
        if_neg (by push_neg; linarith), if_neg (by push_neg; exact le_refl _)]
  · intro hbig
    constructor
    · rw [getUnitCostStatus, if_neg (by push_neg; intro h; linarith),
        if_neg (by push_neg; linarith), if_neg (by push_neg; linarith), if_pos hbig]
    · rw [unitCheckStatus, if_neg (by push_neg; linarith), if_neg (by push_neg; linarith),
        if_pos hbig]

theorem claim_C8_amended_witness :
    ((0 : ℚ) ≤ 12 ∧ (12 : ℚ) ≤ 28) ∧
    (getUnitCostStatus 28 ⟨12, 18, 28, 19, "empirical", "CY"⟩ = "IN_RANGE" ∧
      unitCheckStatus 28 12 28 = "IN_RANGE") ∧
    (getUnitCostStatus 43 ⟨12, 18, 28, 19, "empirical", "CY"⟩ = "VERY_HIGH" ∧
      unitCheckStatus 43 12 28 = "VERY_HIGH") :=
  ⟨⟨by norm_num, by norm_num⟩,
   (claim_C8_amended 28 ⟨12, 18, 28, 19, "empirical", "CY"⟩ (by norm_num) (by norm_num)).1 rfl,
   (claim_C8_amended 43 ⟨12, 18, 28, 19, "empirical", "CY"⟩ (by norm_num) (by norm_num)).2
     (by norm_num)⟩

/-- Claim C7 counterexample: `calculateConfidence` weighs production
reliability by `a.directCost || 1`; a snapshot with one activity carrying a
negative direct cost (-100, against +101) drives the cost-weighted average to
25.9 and the composite to 9.39 > 1, so the composite is not always in [0,1]
over arbitrary snapshots. -/
theorem claim_C7_counterexample :
    ¬ ((calculateConfidence
        ⟨[⟨"excavation", 0, 0, 1, -100⟩, ⟨"tack_coat", 0, 0, 1, 101⟩],
          "parking_lot"⟩).composite ≤ 1) := by
  decide

/-- One patched activity result is a fixed point of the patch: every value it
recomputes depends only on the estimate-side statics and on fields the patch
never writes (`id`, `duration`, labor/equipment/material/mobilization
costs). -/
theorem patchActivity_idem (est : ℕ → Option EstActivity) (truckingRate : ℚ)
    (ar : ActivityResult) :
    patchActivity est truckingRate (patchActivity est truckingRate ar) =
      patchActivity est truckingRate ar := by
  rcases h : est ar.id with _ | activity
  · simp [patchActivity, h]
  · by_cases ho : activity.truckingQuantityOverride ≠ 0
    · rcases ht : activity.trucking with _ | t
      · simp [patchActivity, h, ho, ht]
      · by_cases hd : 0 < ar.duration ∧ 0 < activity.truckingQuantityOverride
        · simp [patchActivity, h, ho, ht, hd]
        · simp [patchActivity, h, ho, ht, hd]
    · simp [patchActivity, h, ho]

/-- Fold invariant preservation (used for the scorer accumulators). -/
theorem foldl_inv {α σ : Type _} {P : σ → Prop} (f : σ → α → σ) :
    ∀ (L : List α) (s : σ), P s → (∀ s a, a ∈ L → P s → P (f s a)) → P (L.foldl f s) := by
  intro L
  induction L with
  | nil => intro s hs _; simpa using hs
  | cons a L ih =>
    intro s hs hstep
    rw [List.foldl_cons]
    exact ih (f s a) (hstep s a (List.mem_cons_self a L) hs)
      (fun s b hb hsb => hstep s b (List.mem_cons_of_mem a hb) hsb)

/-- A successful association-list lookup returns a table value. -/
theorem lookup_prop {β : Type _} {P : β → Prop} :
    ∀ (l : List (String × β)) (k : String) (v : β),
      (∀ p ∈ l, P p.2) → l.lookup k = some v → P v := by
  intro l
  induction l with
  | nil => intro k v _ h; simp [List.lookup] at h
  | cons p rest ih =>
    intro k v hall h
    obtain ⟨pk, pb⟩ := p
    rw [List.lookup] at h
    split at h
    · have hv : pb = v := by injection h
      subst hv
      exact hall (pk, pb) (List.mem_cons_self _ _)
    · exact ih k v (fun q hq => hall q (List.mem_cons_of_mem _ hq)) h

theorem rateConfidence_score_bounds :
    ∀ p ∈ RATE_CONFIDENCE, 0 ≤ p.2.score ∧ p.2.score ≤ 1 := by decide

/-- The guarded average `totalWeight > 0 ? weighted / totalWeight : 0.5` is
in [0,1] whenever the accumulators satisfy `0 ≤ num ≤ den`. -/
theorem guardedRatio_bounds (st : ℚ × ℚ) (h1 : 0 ≤ st.1) (h2 : st.1 ≤ st.2) :
    0 ≤ (if 0 < st.2 then st.1 / st.2 else 1/2) ∧
      (if 0 < st.2 then st.1 / st.2 else 1/2) ≤ 1 := by
  split
  · rename_i hpos
    exact ⟨div_nonneg h1 hpos.le, (div_le_one hpos).2 h2⟩
  · norm_num

/-- ℕ-counter variant: `total > 0 ? inRange / total : 0.5` is in [0,1] when
`inRange ≤ total`. -/
theorem guardedCount_bounds (st : ℕ × ℕ) (h : st.1 ≤ st.2) :
    0 ≤ (if 0 < st.2 then (st.1 : ℚ) / (st.2 : ℚ) else 1/2) ∧
      (if 0 < st.2 then (st.1 : ℚ) / (st.2 : ℚ) else 1/2) ≤ 1 := by
  split
  · rename_i hpos
    have hq : (0 : ℚ) < (st.2 : ℚ) := by exact_mod_cast hpos
    refine ⟨div_nonneg (by positivity) hq.le, (div_le_one hq).2 ?_⟩
    exact_mod_cast h
  · norm_num

theorem calcProductionReliability_bounds (acts : List ConfActivity)
    (h : ∀ a ∈ acts, 0 ≤ a.directCost) :
    0 ≤ calcProductionReliability acts ∧ calcProductionReliability acts ≤ 1 := by
  have key := foldl_inv (P := fun st : ℚ × ℚ => 0 ≤ st.1 ∧ st.1 ≤ st.2)
    (fun (st : ℚ × ℚ) (a : ConfActivity) =>
      match RATE_CONFIDENCE.lookup a.activityType with
      | none => st
      | some conf =>
        let weight := if a.directCost = 0 then (1 : ℚ) else a.directCost
        (st.1 + conf.score * weight, st.2 + weight))
    acts (0, 0) (by norm_num) ?step
  case step =>
    intro st a ha hst
    cases hl : RATE_CONFIDENCE.lookup a.activityType with
    | none => simpa [hl] using hst
    | some conf =>
      have hscore := lookup_prop (P := fun c => 0 ≤ c.score ∧ c.score ≤ 1)
        RATE_CONFIDENCE a.activityType conf rateConfidence_score_bounds hl
      have hw : 0 ≤ (if a.directCost = 0 then (1 : ℚ) else a.directCost) := by
        split
        · norm_num
        · exact h a ha
      have hmul0 : 0 ≤ conf.score * (if a.directCost = 0 then (1 : ℚ) else a.directCost) :=
        mul_nonneg hscore.1 hw
      have hmul1 : conf.score * (if a.directCost = 0 then (1 : ℚ) else a.directCost) ≤
          (if a.directCost = 0 then (1 : ℚ) else a.directCost) :=
        mul_le_of_le_one_left hw hscore.2
      simp only [hl]
      exact ⟨by nlinarith [hst.1], by nlinarith [hst.2]⟩
  exact guardedRatio_bounds _ key.1 key.2

theorem calcBenchmarkAlignment_bounds (acts : List ConfActivity)
    (benchmarks : List (String × Benchmark)) :
    0 ≤ calcBenchmarkAlignment acts benchmarks ∧
      calcBenchmarkAlignment acts benchmarks ≤ 1 := by
  have key := foldl_inv (P := fun st : ℕ × ℕ => st.1 ≤ st.2)
    (fun (st : ℕ × ℕ) (a : ConfActivity) =>
      match benchmarks.lookup a.activityType with
      | none => st
      | some bm =>
        if a.unitCost = 0 ∨ a.unitCost ≤ 0 then st
        else (if getUnitCostStatus a.unitCost bm = "IN_RANGE" then st.1 + 1 else st.1,
              st.2 + 1))
    acts (0, 0) (le_refl 0) ?step
  case step =>
    intro st a _ hst
    cases hl : benchmarks.lookup a.activityType with
    | none => simpa [hl] using hst
    | some bm =>
      simp only [hl]
      split
      · exact hst
      · split <;> simp <;> omega
  exact guardedCount_bounds _ key

theorem calcScopeDefinition_bounds (acts : List ConfActivity)
    (qtyRanges : List (String × QtyRange)) :
    0 ≤ calcScopeDefinition acts qtyRanges ∧ calcScopeDefinition acts qtyRanges ≤ 1 := by
  have key := foldl_inv (P := fun st : ℕ × ℕ => st.1 ≤ st.2)
    (fun (st : ℕ × ℕ) (a : ConfActivity) =>
      match qtyRanges.lookup a.activityType with
      | none => st
      | some range =>
        if a.grossQuantity = 0 then st
        else (if range.low ≤ a.grossQuantity ∧ a.grossQuantity ≤ range.high
              then st.1 + 1 else st.1,
              st.2 + 1))
    acts (0, 0) (le_refl 0) ?step
  case step =>
    intro st a _ hst
    cases hl : qtyRanges.lookup a.activityType with
    | none => simpa [hl] using hst
    | some range =>
      simp only [hl]
      split
      · exact hst
      · split <;> simp <;> omega
  exact guardedCount_bounds _ key

theorem dataQualityScore_bounds (n : ℕ) :
    0 ≤ dataQualityScore n ∧ dataQualityScore n ≤ 1 := by
  unfold dataQualityScore
  split_ifs <;> norm_num

/-- The guarded average of `_calcDataQuality` (default 0.2) is in [0,1]. -/
theorem guardedDq_bounds (st : ℚ × ℕ) (h1 : 0 ≤ st.1) (h2 : st.1 ≤ (st.2 : ℚ)) :
    0 ≤ (if 0 < st.2 then st.1 / (st.2 : ℚ) else 2/10) ∧
      (if 0 < st.2 then st.1 / (st.2 : ℚ) else 2/10) ≤ 1 := by
  split
  · rename_i hpos
    have hq : (0 : ℚ) < (st.2 : ℚ) := by exact_mod_cast hpos
    exact ⟨div_nonneg h1 hq.le, (div_le_one hq).2 h2⟩
  · norm_num

theorem calcDataQuality_bounds (acts : List ConfActivity)
    (benchmarks : List (String × Benchmark)) :
    0 ≤ calcDataQuality acts benchmarks ∧ calcDataQuality acts benchmarks ≤ 1 := by
  have key := foldl_inv (P := fun st : ℚ × ℕ => 0 ≤ st.1 ∧ st.1 ≤ (st.2 : ℚ))
    (fun (st : ℚ × ℕ) (a : ConfActivity) =>
      match benchmarks.lookup a.activityType with
      | none => st
      | some bm => (st.1 + dataQualityScore bm.n, st.2 + 1))
    acts (0, 0) (by norm_num) ?step
  case step =>
    intro st a _ hst
    cases hl : benchmarks.lookup a.activityType with
    | none => simpa [hl] using hst
    | some bm =>
      have hb := dataQualityScore_bounds bm.n
      simp only [hl]
      refine ⟨by nlinarith [hst.1, hb.1], ?_⟩
      push_cast
      nlinarith [hst.2, hb.2]
  exact guardedDq_bounds _ key.1 key.2

/-- Claim C7, amended: for every snapshot whose activities carry non-negative
direct costs, the confidence composite lies in [0,1]; and a snapshot with
zero active activities (all durations 0) yields composite 0 and descriptor
LOW. -/
theorem claim_C7_amended (snapshot : ConfSnapshot)
    (h : ∀ a ∈ snapshot.activities, 0 ≤ a.directCost) :
    (0 ≤ (calculateConfidence snapshot).composite ∧
      (calculateConfidence snapshot).composite ≤ 1) ∧
    ((∀ a ∈ snapshot.activities, a.duration = 0) →
      (calculateConfidence snapshot).composite = 0 ∧
      (calculateConfidence snapshot).descriptor = "LOW") := by
  unfold calculateConfidence
  by_cases hemp : (snapshot.activities.filter (fun a => 0 < a.duration)).isEmpty
  · rw [if_pos hemp]
    exact ⟨⟨le_refl 0, by norm_num [emptyConfidence]⟩, fun _ => ⟨rfl, rfl⟩⟩
  · rw [if_neg hemp]
    have hsub : ∀ a ∈ snapshot.activities.filter (fun a => 0 < a.duration),
        0 ≤ a.directCost := fun a ha => h a (List.mem_of_mem_filter ha)
    have hpr := calcProductionReliability_bounds _ hsub
    have hba := calcBenchmarkAlignment_bounds
      (snapshot.activities.filter (fun a => 0 < a.duration)) (benchmarksFor snapshot.jobMode)
    have hsd := calcScopeDefinition_bounds
      (snapshot.activities.filter (fun a => 0 < a.duration)) (qtyRangesFor snapshot.jobMode)
    have hdq := calcDataQuality_bounds
      (snapshot.activities.filter (fun a => 0 < a.duration)) (benchmarksFor snapshot.jobMode)
    refine ⟨⟨?_, ?_⟩, fun hall => ?_⟩
    · show 0 ≤ calcProductionReliability _ * CONFIDENCE_WEIGHTS.1 +
        calcBenchmarkAlignment _ _ * CONFIDENCE_WEIGHTS.2.1 +
        calcScopeDefinition _ _ * CONFIDENCE_WEIGHTS.2.2.1 +
        calcDataQuality _ _ * CONFIDENCE_WEIGHTS.2.2.2
      simp only [CONFIDENCE_WEIGHTS]
      nlinarith [hpr.1, hba.1, hsd.1, hdq.1]
    · show calcProductionReliability _ * CONFIDENCE_WEIGHTS.1 +
        calcBenchmarkAlignment _ _ * CONFIDENCE_WEIGHTS.2.1 +
        calcScopeDefinition _ _ * CONFIDENCE_WEIGHTS.2.2.1 +
        calcDataQuality _ _ * CONFIDENCE_WEIGHTS.2.2.2 ≤ 1
      simp only [CONFIDENCE_WEIGHTS]
      nlinarith [hpr.2, hba.2, hsd.2, hdq.2]
    · exfalso
      apply hemp
      rw [List.isEmpty_iff]
      apply List.filter_eq_nil_iff.2
      intro a ha
      simp [hall a ha]

theorem claim_C7_amended_witness :
    (∀ a ∈ ([⟨"milling", 5, 100, 0, 50⟩] : List ConfActivity), 0 ≤ a.directCost) ∧
    (0 ≤ (calculateConfidence ⟨[⟨"milling", 5, 100, 0, 50⟩], "parking_lot"⟩).composite ∧
      (calculateConfidence ⟨[⟨"milling", 5, 100, 0, 50⟩], "parking_lot"⟩).composite ≤ 1) ∧
    ((calculateConfidence ⟨[⟨"milling", 5, 100, 0, 50⟩], "parking_lot"⟩).composite = 0 ∧
      (calculateConfidence ⟨[⟨"milling", 5, 100, 0, 50⟩], "parking_lot"⟩).descriptor = "LOW") := by
  have h := claim_C7_amended ⟨[⟨"milling", 5, 100, 0, 50⟩], "parking_lot"⟩ (by decide)
  exact ⟨by decide, h.1, h.2 (by decide)⟩


set_option maxHeartbeats 1600000 in
/-- Closed form of the hours assigned by `snapWithHustle` on positive input:
the lowest billing increment whose hustle-extended window (increment + 0.5)
covers the hours, or the next multiple of 12 above the last window. -/
theorem snapWithHustle_hours_eq (h s : ℚ) (h0 : 0 < h) :
    (snapWithHustle h s).hours =
      if h ≤ 9/2 then 4 else if h ≤ 13/2 then 6 else if h ≤ 17/2 then 8
      else if h ≤ 21/2 then 10 else if h ≤ 25/2 then 12
      else ((⌈h / 12⌉ : ℤ) : ℚ) * 12 := by
  rw [snapWithHustle, if_neg (not_le.mpr h0)]
  rw [show BILLING_INCREMENTS = [4, 6, 8, 10, 12] from rfl,
      show HUSTLE_THRESHOLD = 1/2 from rfl]
  simp only [snapLoop]
  by_cases c1 : h ≤ 4
  · rw [if_pos c1]; dsimp only; split_ifs <;> linarith
  rw [if_neg c1]
  by_cases c2 : h ≤ 4 + 1/2
  · rw [if_pos c2]; dsimp only; split_ifs <;> linarith
  rw [if_neg c2]
  by_cases c3 : h ≤ 6
  · rw [if_pos c3]; dsimp only; split_ifs <;> linarith
  rw [if_neg c3]
  by_cases c4 : h ≤ 6 + 1/2
  · rw [if_pos c4]; dsimp only; split_ifs <;> linarith
  rw [if_neg c4]
  by_cases c5 : h ≤ 8
  · rw [if_pos c5]; dsimp only; split_ifs <;> linarith
  rw [if_neg c5]
  by_cases c6 : h ≤ 8 + 1/2
  · rw [if_pos c6]; dsimp only; split_ifs <;> linarith
  rw [if_neg c6]
  by_cases c7 : h ≤ 10
  · rw [if_pos c7]; dsimp only; split_ifs <;> linarith
  rw [if_neg c7]
  by_cases c8 : h ≤ 10 + 1/2
  · rw [if_pos c8]; dsimp only; split_ifs <;> linarith
  rw [if_neg c8]
  by_cases c9 : h ≤ 12
  · rw [if_pos c9]; dsimp only; split_ifs <;> linarith
  rw [if_neg c9]
  by_cases c10 : h ≤ 12 + 1/2
  · rw [if_pos c10]; dsimp only; split_ifs <;> linarith
  rw [if_neg c10]
  dsimp only
  rw [show ([4, 6, 8, 10, 12] : List ℚ).getLastD 0 = (12 : ℚ) from rfl]
  split_ifs <;> linarith
/-- `snapWithHustle` undercuts its input by at most the hustle threshold. -/
theorem snap_hours_ge (h s : ℚ) (h0 : 0 < h) :
    h - 1/2 ≤ (snapWithHustle h s).hours := by
  rw [snapWithHustle_hours_eq h s h0]
  have hceil : h / 12 ≤ ((⌈h / 12⌉ : ℤ) : ℚ) := Int.le_ceil _
  have h12 : h ≤ ((⌈h / 12⌉ : ℤ) : ℚ) * 12 := by
    rw [div_le_iff (by norm_num : (0:ℚ) < 12)] at hceil
    linarith
  split_ifs <;> linarith

/-- `snapWithHustle` output is an even quantity of at least 4 hours. -/
theorem snap_hours_even (h s : ℚ) (h0 : 0 < h) :
    ∃ k : ℤ, 2 ≤ k ∧ (snapWithHustle h s).hours = 2 * k := by
  rw [snapWithHustle_hours_eq h s h0]
  split_ifs with u1 u2 u3 u4 u5
  · exact ⟨2, by norm_num, by norm_num⟩
  · exact ⟨3, by norm_num, by norm_num⟩
  · exact ⟨4, by norm_num, by norm_num⟩
  · exact ⟨5, by norm_num, by norm_num⟩
  · exact ⟨6, by norm_num, by norm_num⟩
  · refine ⟨6 * ⌈h / 12⌉, ?_, by push_cast; ring⟩
    have : (1 : ℤ) < ⌈h / 12⌉ := Int.lt_ceil.2 (by rw [lt_div_iff (by norm_num : (0:ℚ) < 12)]; push_cast; linarith)
    omega

/-- `snapWithHustle` output is a billing increment or a multiple of 12. -/
theorem snap_hours_shape (h s : ℚ) (h0 : 0 < h) :
    (snapWithHustle h s).hours ∈ BILLING_INCREMENTS ∨
      ∃ j : ℕ, (snapWithHustle h s).hours = 12 * (j : ℚ) := by
  rw [snapWithHustle_hours_eq h s h0]
  split_ifs
  · exact Or.inl (by rw [show BILLING_INCREMENTS = [4, 6, 8, 10, 12] from rfl]; simp)
  · exact Or.inl (by rw [show BILLING_INCREMENTS = [4, 6, 8, 10, 12] from rfl]; simp)
  · exact Or.inl (by rw [show BILLING_INCREMENTS = [4, 6, 8, 10, 12] from rfl]; simp)
  · exact Or.inl (by rw [show BILLING_INCREMENTS = [4, 6, 8, 10, 12] from rfl]; simp)
  · exact Or.inl (by rw [show BILLING_INCREMENTS = [4, 6, 8, 10, 12] from rfl]; simp)
  · refine Or.inr ⟨⌈h / 12⌉.toNat, ?_⟩
    have hpos : (0 : ℤ) ≤ ⌈h / 12⌉ := Int.ceil_nonneg (by positivity)
    have hcast : ((⌈h / 12⌉.toNat : ℕ) : ℚ) = ((⌈h / 12⌉ : ℤ) : ℚ) := by
      exact_mod_cast Int.toNat_of_nonneg hpos
    rw [hcast]
    ring

/-- Floor sandwich for the full-days computation. -/
theorem fullDays_facts (r b : ℚ) (hb : 0 < b) (hr : 0 < r) :
    0 ≤ ⌊r / b⌋ ∧ ((⌊r / b⌋ : ℤ) : ℚ) * b ≤ r ∧ r < ((⌊r / b⌋ : ℤ) : ℚ) * b + b := by
  refine ⟨Int.floor_nonneg.2 (by positivity), ?_, ?_⟩
  · have h1 : ((⌊r / b⌋ : ℤ) : ℚ) ≤ r / b := Int.floor_le _
    rw [le_div_iff hb] at h1
    linarith
  · have h2 : r / b < ((⌊r / b⌋ : ℤ) : ℚ) + 1 := Int.lt_floor_add_one _
    rw [div_lt_iff hb] at h2
    linarith

/-- Every candidate bills at least the raw hours minus the hustle threshold. -/
theorem buildCandidate_hours_ge (r b : ℚ) (hb : 0 < b) (hr : 0 < r) :
    r - 1/2 ≤ (buildCandidate r b).hours := by
  obtain ⟨hfd0, hl, hu⟩ := fullDays_facts r b hb hr
  simp only [buildCandidate]
  split_ifs with h1 h2
  · simp only
    linarith [h1.1]
  · simp only
    have hrem : r - ((⌊r / b⌋ : ℤ) : ℚ) * b = r := by rw [h2]; push_cast; ring
    rw [hrem]
    exact snap_hours_ge r b hr
  · -- option A chosen
    simp only
    have hrempos : 0 < r - ((⌊r / b⌋ : ℤ) : ℚ) * b := by
      rcases not_and_or.1 h1 with hna | hnb
      · linarith [not_le.1 hna]
      · exfalso
        exact hnb (lt_of_le_of_ne hfd0 (Ne.symm h2))
    have hs := snap_hours_ge (b + (r - ((⌊r / b⌋ : ℤ) : ℚ) * b)) b (by linarith)
    linarith
  · -- option B chosen
    simp only
    have hrempos : 0 < r - ((⌊r / b⌋ : ℤ) : ℚ) * b := by
      rcases not_and_or.1 h1 with hna | hnb
      · linarith [not_le.1 hna]
      · exfalso
        exact hnb (lt_of_le_of_ne hfd0 (Ne.symm h2))
    have hs := snap_hours_ge (r - ((⌊r / b⌋ : ℤ) : ℚ) * b) b hrempos
    linarith

/-- Every candidate spans at least one day. -/
theorem buildCandidate_days_ge1 (r b : ℚ) (hb : 0 < b) (hr : 0 < r) :
    1 ≤ (buildCandidate r b).days := by
  obtain ⟨hfd0, hl, hu⟩ := fullDays_facts r b hb hr
  simp only [buildCandidate]
  split_ifs with h1 h2
  · simp only
    exact_mod_cast h1.2
  · simp only
    norm_num
  · simp only
    have : (1 : ℤ) ≤ ⌊r / b⌋ := lt_of_le_of_ne hfd0 (Ne.symm h2)
    exact_mod_cast this
  · simp only
    have : (1 : ℤ) ≤ ⌊r / b⌋ := lt_of_le_of_ne hfd0 (Ne.symm h2)
    have h12 : (1 : ℚ) ≤ ((⌊r / b⌋ : ℤ) : ℚ) := by exact_mod_cast this
    linarith

/-- A max-shift (base 12) candidate bills an even quantity of at least 4
hours. -/
theorem buildCandidate12_hours_even (r : ℚ) (hr : 0 < r) :
    ∃ k : ℤ, 2 ≤ k ∧ (buildCandidate r 12).hours = 2 * (k : ℚ) := by
  obtain ⟨hfd0, hl, hu⟩ := fullDays_facts r 12 (by norm_num) hr
  simp only [buildCandidate]
  split_ifs with h1 h2
  · refine ⟨6 * ⌊r / 12⌋, by have := h1.2; omega, ?_⟩
    simp only
    push_cast
    ring
  · have hrem : r - ((⌊r / 12⌋ : ℤ) : ℚ) * 12 = r := by rw [h2]; push_cast; ring
    simp only
    rw [hrem]
    exact snap_hours_even r 12 hr
  · have hfd1 : (1 : ℤ) ≤ ⌊r / 12⌋ := lt_of_le_of_ne hfd0 (Ne.symm h2)
    have hremlt : r - ((⌊r / 12⌋ : ℤ) : ℚ) * 12 < 12 := by linarith
    have hremgt : 0 < 12 + (r - ((⌊r / 12⌋ : ℤ) : ℚ) * 12) := by
      rcases not_and_or.1 h1 with hna | hnb
      · linarith [not_le.1 hna]
      · exact absurd (lt_of_le_of_ne hfd0 (Ne.symm h2)) hnb
    obtain ⟨k, hk2, hkeq⟩ := snap_hours_even (12 + (r - ((⌊r / 12⌋ : ℤ) : ℚ) * 12)) 12 hremgt
    refine ⟨6 * (⌊r / 12⌋ - 1) + k, by omega, ?_⟩
    simp only
    rw [hkeq]
    push_cast
    ring
  · have hremgt : 0 < r - ((⌊r / 12⌋ : ℤ) : ℚ) * 12 := by
      rcases not_and_or.1 h1 with hna | hnb
      · linarith [not_le.1 hna]
      · exact absurd (lt_of_le_of_ne hfd0 (Ne.symm h2)) hnb
    obtain ⟨k, hk2, hkeq⟩ := snap_hours_even (r - ((⌊r / 12⌋ : ℤ) : ℚ) * 12) 12 hremgt
    have hfd1 : (1 : ℤ) ≤ ⌊r / 12⌋ := lt_of_le_of_ne hfd0 (Ne.symm h2)
    refine ⟨6 * ⌊r / 12⌋ + k, by omega, ?_⟩
    simp only
    rw [hkeq]
    push_cast
    ring

theorem ceil_eq_int (x : ℚ) (z : ℤ) (h1 : (z : ℚ) - 1 < x) (h2 : x ≤ (z : ℚ)) :
    ⌈x⌉ = z :=
  Int.ceil_eq_iff.2 ⟨h1, h2⟩

set_option maxHeartbeats 3200000 in
/-- Closed form of the standard-base (8h) candidate: billed hours are the
least even number that is at least 4 and at least raw hours minus the hustle
threshold; billed days are `max 1 ⌈(r - 4.5) / 8⌉`. -/
theorem buildCandidate8_eq (r : ℚ) (hr : 0 < r) :
    (buildCandidate r 8).hours = ((2 * max 2 ⌈(r - 1/2) / 2⌉ : ℤ) : ℚ) ∧
    (buildCandidate r 8).days = ((max 1 ⌈(r - 9/2) / 8⌉ : ℤ) : ℚ) := by
  obtain ⟨hfd0, hl, hu⟩ := fullDays_facts r 8 (by norm_num) hr
  simp only [buildCandidate]
  split_ifs with h1 h2 hAB
  -- Branch 1: remainder 0, positive full days
  · have hre : r = ((⌊r / 8⌋ : ℤ) : ℚ) * 8 := le_antisymm (by linarith [h1.1]) hl
    have hfd1 : (1 : ℤ) ≤ ⌊r / 8⌋ := h1.2
    constructor
    · simp only
      rw [ceil_eq_int ((r - 1/2) / 2) (4 * ⌊r / 8⌋) (by push_cast; linarith)
        (by push_cast; linarith)]
      rw [max_eq_right (by omega : (2 : ℤ) ≤ 4 * ⌊r / 8⌋)]
      push_cast
      linarith
    · simp only
      rw [ceil_eq_int ((r - 9/2) / 8) ⌊r / 8⌋ (by push_cast; linarith)
        (by push_cast; linarith)]
      rw [max_eq_right hfd1]
  -- Branch 2: no full day, snap the whole scope
  · have hfh : ((⌊r / 8⌋ : ℤ) : ℚ) = 0 := by rw [h2]; norm_num
    have hr8 : r < 8 := by linarith [hu, hfh]
    have hrem : r - ((⌊r / 8⌋ : ℤ) : ℚ) * 8 = r := by rw [hfh]; ring
    constructor
    · simp only
      rw [hrem, snapWithHustle_hours_eq r 8 hr]
      split_ifs with u1 u2 u3 u4 u5
      · rw [max_eq_left (Int.ceil_le.2 (by push_cast; linarith))]
        norm_num
      · rw [ceil_eq_int ((r - 1/2) / 2) 3 (by push_cast; linarith) (by push_cast; linarith)]
        norm_num
      · rw [ceil_eq_int ((r - 1/2) / 2) 4 (by push_cast; linarith) (by push_cast; linarith)]
        norm_num
      · linarith
      · linarith
      · linarith
    · simp only
      rw [max_eq_left (Int.ceil_le.2 (by push_cast; linarith))]
      norm_num
  -- Remaining branches: at least one full day and a positive remainder
  · have hfd1 : (1 : ℤ) ≤ ⌊r / 8⌋ := lt_of_le_of_ne hfd0 (Ne.symm h2)
    have hfd1q : (1 : ℚ) ≤ ((⌊r / 8⌋ : ℤ) : ℚ) := by exact_mod_cast hfd1
    have hrempos : 0 < r - ((⌊r / 8⌋ : ℤ) : ℚ) * 8 := by
      rcases not_and_or.1 h1 with hna | hnb
      · linarith [not_le.1 hna]
      · exact absurd (lt_of_le_of_ne hfd0 (Ne.symm h2)) hnb
    have hremlt : r - ((⌊r / 8⌋ : ℤ) : ℚ) * 8 < 8 := by linarith
    -- Option A was chosen
    rcases le_or_lt (r - ((⌊r / 8⌋ : ℤ) : ℚ) * 8) (1/2) with b1 | b1
    · have hA : (snapWithHustle (8 + (r - ((⌊r / 8⌋ : ℤ) : ℚ) * 8)) 8).hours = 8 := by
        rw [snapWithHustle_hours_eq _ _ (by linarith), if_neg (by linarith),
          if_neg (by linarith), if_pos (by linarith)]
      constructor
      · simp only
        rw [hA, ceil_eq_int ((r - 1/2) / 2) (4 * ⌊r / 8⌋) (by push_cast; linarith)
            (by push_cast; linarith),
          max_eq_right (by omega : (2 : ℤ) ≤ 4 * ⌊r / 8⌋)]
        push_cast
        ring
      · simp only
        rw [ceil_eq_int ((r - 9/2) / 8) ⌊r / 8⌋ (by push_cast; linarith)
            (by push_cast; linarith),
          max_eq_right hfd1]
    rcases le_or_lt (r - ((⌊r / 8⌋ : ℤ) : ℚ) * 8) (5/2) with b2 | b2
    · have hA : (snapWithHustle (8 + (r - ((⌊r / 8⌋ : ℤ) : ℚ) * 8)) 8).hours = 10 := by
        rw [snapWithHustle_hours_eq _ _ (by linarith), if_neg (by linarith),
          if_neg (by linarith), if_neg (by linarith), if_pos (by linarith)]
      constructor
      · simp only
        rw [hA, ceil_eq_int ((r - 1/2) / 2) (4 * ⌊r / 8⌋ + 1) (by push_cast; linarith)
            (by push_cast; linarith),
          max_eq_right (by omega : (2 : ℤ) ≤ 4 * ⌊r / 8⌋ + 1)]
        push_cast
        ring
      · simp only
        rw [ceil_eq_int ((r - 9/2) / 8) ⌊r / 8⌋ (by push_cast; linarith)
            (by push_cast; linarith),
          max_eq_right hfd1]
    rcases le_or_lt (r - ((⌊r / 8⌋ : ℤ) : ℚ) * 8) (9/2) with b3 | b3
    · have hA : (snapWithHustle (8 + (r - ((⌊r / 8⌋ : ℤ) : ℚ) * 8)) 8).hours = 12 := by
        rw [snapWithHustle_hours_eq _ _ (by linarith), if_neg (by linarith),
          if_neg (by linarith), if_neg (by linarith), if_neg (by linarith),
          if_pos (by linarith)]
      constructor
      · simp only
        rw [hA, ceil_eq_int ((r - 1/2) / 2) (4 * ⌊r / 8⌋ + 2) (by push_cast; linarith)
            (by push_cast; linarith),
          max_eq_right (by omega : (2 : ℤ) ≤ 4 * ⌊r / 8⌋ + 2)]
        push_cast
        ring
      · simp only
        rw [ceil_eq_int ((r - 9/2) / 8) ⌊r / 8⌋ (by push_cast; linarith)
            (by push_cast; linarith),
          max_eq_right hfd1]
    -- remainder > 4.5: option A costs 16 extra hours, B at most 8; contradiction
    · exfalso
      have hA : (snapWithHustle (8 + (r - ((⌊r / 8⌋ : ℤ) : ℚ) * 8)) 8).hours = 24 := by
        rw [snapWithHustle_hours_eq _ _ (by linarith), if_neg (by linarith),
          if_neg (by linarith), if_neg (by linarith), if_neg (by linarith),
          if_neg (by linarith),
          ceil_eq_int ((8 + (r - ((⌊r / 8⌋ : ℤ) : ℚ) * 8)) / 12) 2
            (by push_cast; linarith) (by push_cast; linarith)]
        norm_num
      have hBle : (snapWithHustle (r - ((⌊r / 8⌋ : ℤ) : ℚ) * 8) 8).hours ≤ 8 := by
        rw [snapWithHustle_hours_eq _ _ hrempos]
        split_ifs <;> linarith
      rw [hA] at hAB
      linarith
  -- Option B was chosen
  · have hfd1 : (1 : ℤ) ≤ ⌊r / 8⌋ := lt_of_le_of_ne hfd0 (Ne.symm h2)
    have hfd1q : (1 : ℚ) ≤ ((⌊r / 8⌋ : ℤ) : ℚ) := by exact_mod_cast hfd1
    have hrempos : 0 < r - ((⌊r / 8⌋ : ℤ) : ℚ) * 8 := by
      rcases not_and_or.1 h1 with hna | hnb
      · linarith [not_le.1 hna]
      · exact absurd (lt_of_le_of_ne hfd0 (Ne.symm h2)) hnb
    have hremlt : r - ((⌊r / 8⌋ : ℤ) : ℚ) * 8 < 8 := by linarith
    rcases le_or_lt (r - ((⌊r / 8⌋ : ℤ) : ℚ) * 8) (9/2) with b3 | b3
    · -- in this region option A is never more expensive: contradiction
      exfalso
      apply hAB
      have hBge : (4 : ℚ) ≤ (snapWithHustle (r - ((⌊r / 8⌋ : ℤ) : ℚ) * 8) 8).hours := by
        rw [snapWithHustle_hours_eq _ _ hrempos]
        split_ifs <;> first | linarith | (norm_num)
      rcases le_or_lt (r - ((⌊r / 8⌋ : ℤ) : ℚ) * 8) (1/2) with b1 | b1
      · have hA : (snapWithHustle (8 + (r - ((⌊r / 8⌋ : ℤ) : ℚ) * 8)) 8).hours = 8 := by
          rw [snapWithHustle_hours_eq _ _ (by linarith), if_neg (by linarith),
            if_neg (by linarith), if_pos (by linarith)]
        rw [hA]
        linarith
      rcases le_or_lt (r - ((⌊r / 8⌋ : ℤ) : ℚ) * 8) (5/2) with b2 | b2
      · have hA : (snapWithHustle (8 + (r - ((⌊r / 8⌋ : ℤ) : ℚ) * 8)) 8).hours = 10 := by
          rw [snapWithHustle_hours_eq _ _ (by linarith), if_neg (by linarith),
            if_neg (by linarith), if_neg (by linarith), if_pos (by linarith)]
        have hB4 : (snapWithHustle (r - ((⌊r / 8⌋ : ℤ) : ℚ) * 8) 8).hours = 4 := by
          rw [snapWithHustle_hours_eq _ _ hrempos, if_pos (by linarith)]
        rw [hA, hB4]
        linarith
      · have hA : (snapWithHustle (8 + (r - ((⌊r / 8⌋ : ℤ) : ℚ) * 8)) 8).hours = 12 := by
          rw [snapWithHustle_hours_eq _ _ (by linarith), if_neg (by linarith),
            if_neg (by linarith), if_neg (by linarith), if_neg (by linarith),
            if_pos (by linarith)]
        have hB4 : (snapWithHustle (r - ((⌊r / 8⌋ : ℤ) : ℚ) * 8) 8).hours = 4 := by
          rw [snapWithHustle_hours_eq _ _ hrempos, if_pos (by linarith)]
        rw [hA, hB4]
        linarith
    rcases le_or_lt (r - ((⌊r / 8⌋ : ℤ) : ℚ) * 8) (13/2) with b4 | b4
    · have hB : (snapWithHustle (r - ((⌊r / 8⌋ : ℤ) : ℚ) * 8) 8).hours = 6 := by
        rw [snapWithHustle_hours_eq _ _ hrempos, if_neg (by linarith),
          if_pos (by linarith)]
      constructor
      · simp only
        rw [hB, ceil_eq_int ((r - 1/2) / 2) (4 * ⌊r / 8⌋ + 3) (by push_cast; linarith)
            (by push_cast; linarith),
          max_eq_right (by omega : (2 : ℤ) ≤ 4 * ⌊r / 8⌋ + 3)]
        push_cast
        ring
      · simp only
        rw [ceil_eq_int ((r - 9/2) / 8) (⌊r / 8⌋ + 1) (by push_cast; linarith)
            (by push_cast; linarith),
          max_eq_right (by omega : (1 : ℤ) ≤ ⌊r / 8⌋ + 1)]
        push_cast
        ring
    · have hB : (snapWithHustle (r - ((⌊r / 8⌋ : ℤ) : ℚ) * 8) 8).hours = 8 := by
        rw [snapWithHustle_hours_eq _ _ hrempos, if_neg (by linarith),
          if_neg (by linarith), if_pos (by linarith)]
      constructor
      · simp only
        rw [hB, ceil_eq_int ((r - 1/2) / 2) (4 * ⌊r / 8⌋ + 4) (by push_cast; linarith)
            (by push_cast; linarith),
          max_eq_right (by omega : (2 : ℤ) ≤ 4 * ⌊r / 8⌋ + 4)]
        push_cast
        ring
      · simp only
        rw [ceil_eq_int ((r - 9/2) / 8) (⌊r / 8⌋ + 1) (by push_cast; linarith)
            (by push_cast; linarith),
          max_eq_right (by omega : (1 : ℤ) ≤ ⌊r / 8⌋ + 1)]
        push_cast
        ring

theorem enforceMinDays_noop (rawHours stdShift : ℚ) (c : ShiftCandidate)
    (h : 1 ≤ c.days) : enforceMinDays rawHours stdShift 1 c = c := by
  rw [enforceMinDays, if_neg (not_lt.2 h)]

/-- With the default 8h/12h shift settings the standard-base candidate always
wins: its hours are the least admissible even total, and ties go to it by the
stable sort. -/
theorem optimizeShifts_eq_std (r : ℚ) (hr : 0 < r) :
    optimizeShifts r 8 12 1 = buildCandidate r 8 := by
  rw [optimizeShifts, if_neg (not_le.2 hr),
    if_pos (show (12 : ℚ) ≠ 8 by norm_num),
    enforceMinDays_noop _ _ _ (buildCandidate_days_ge1 r 8 (by norm_num) hr),
    enforceMinDays_noop _ _ _ (buildCandidate_days_ge1 r 12 (by norm_num) hr),
    if_neg (not_lt.2 ?hle)]
  case hle =>
    obtain ⟨k, hk2, hkeq⟩ := buildCandidate12_hours_even r hr
    have h12ge := buildCandidate_hours_ge r 12 (by norm_num) hr
    rw [(buildCandidate8_eq r hr).1, hkeq]
    rw [hkeq] at h12ge
    have hcle : ⌈(r - 1/2) / 2⌉ ≤ k := Int.ceil_le.2 (by push_cast; linarith)
    have hmax : 2 * max 2 ⌈(r - 1/2) / 2⌉ ≤ 2 * k := by
      have := max_le hk2 hcle
      omega
    exact_mod_cast hmax

theorem optimizeShifts_days_eq (r : ℚ) (hr : 0 < r) :
    (optimizeShifts r 8 12 1).days = ((max 1 ⌈(r - 9/2) / 8⌉ : ℤ) : ℚ) := by
  rw [optimizeShifts_eq_std r hr]
  exact (buildCandidate8_eq r hr).2

/-- Billed days under the default shifts are monotone in raw hours. -/
theorem optimizeShifts_days_mono (r1 r2 : ℚ) (h1 : 0 < r1) (h12 : r1 ≤ r2) :
    (optimizeShifts r1 8 12 1).days ≤ (optimizeShifts r2 8 12 1).days := by
  rw [optimizeShifts_days_eq r1 h1, optimizeShifts_days_eq r2 (lt_of_lt_of_le h1 h12)]
  have hc : ⌈(r1 - 9/2) / 8⌉ ≤ ⌈(r2 - 9/2) / 8⌉ := Int.ceil_le_ceil (by linarith)
  have : max 1 ⌈(r1 - 9/2) / 8⌉ ≤ max 1 ⌈(r2 - 9/2) / 8⌉ := max_le_max (le_refl 1) hc
  exact_mod_cast this

/-- Any candidate's hours decompose as whole days at its base plus a snapped
final amount. -/
theorem buildCandidate_shape (r b : ℚ) (hb : 0 < b) (hr : 0 < r) :
    ∃ (k : ℕ) (s : ℚ), (buildCandidate r b).hours = (k : ℚ) * b + s ∧
      (s = 0 ∨ s ∈ BILLING_INCREMENTS ∨ ∃ j : ℕ, s = 12 * (j : ℚ)) := by
  obtain ⟨hfd0, hl, hu⟩ := fullDays_facts r b hb hr
  simp only [buildCandidate]
  split_ifs with h1 h2
  · have hc : ((⌊r / b⌋.toNat : ℕ) : ℚ) = ((⌊r / b⌋ : ℤ) : ℚ) := by
      exact_mod_cast Int.toNat_of_nonneg hfd0
    refine ⟨⌊r / b⌋.toNat, 0, ?_, Or.inl rfl⟩
    simp only
    rw [hc]
    ring
  · have hrem : r - ((⌊r / b⌋ : ℤ) : ℚ) * b = r := by rw [h2]; push_cast; ring
    refine ⟨0, (snapWithHustle (r - ((⌊r / b⌋ : ℤ) : ℚ) * b) b).hours, by simp, ?_⟩
    rw [hrem]
    exact Or.inr (snap_hours_shape r b hr)
  · have hfd1 : (1 : ℤ) ≤ ⌊r / b⌋ := lt_of_le_of_ne hfd0 (Ne.symm h2)
    have hrempos : 0 < r - ((⌊r / b⌋ : ℤ) : ℚ) * b := by
      rcases not_and_or.1 h1 with hna | hnb
      · linarith [not_le.1 hna]
      · exact absurd (lt_of_le_of_ne hfd0 (Ne.symm h2)) hnb
    have hc : (((⌊r / b⌋ - 1).toNat : ℕ) : ℚ) = ((⌊r / b⌋ : ℤ) : ℚ) - 1 := by
      have : ((⌊r / b⌋ - 1).toNat : ℤ) = ⌊r / b⌋ - 1 := Int.toNat_of_nonneg (by omega)
      exact_mod_cast this
    refine ⟨(⌊r / b⌋ - 1).toNat,
      (snapWithHustle (b + (r - ((⌊r / b⌋ : ℤ) : ℚ) * b)) b).hours, ?_, ?_⟩
    · simp only
      rw [hc]
    · exact Or.inr (snap_hours_shape _ b (by linarith))
  · have hfd1 : (1 : ℤ) ≤ ⌊r / b⌋ := lt_of_le_of_ne hfd0 (Ne.symm h2)
    have hrempos : 0 < r - ((⌊r / b⌋ : ℤ) : ℚ) * b := by
      rcases not_and_or.1 h1 with hna | hnb
      · linarith [not_le.1 hna]
      · exact absurd (lt_of_le_of_ne hfd0 (Ne.symm h2)) hnb
    have hc : ((⌊r / b⌋.toNat : ℕ) : ℚ) = ((⌊r / b⌋ : ℤ) : ℚ) := by
      exact_mod_cast Int.toNat_of_nonneg hfd0
    refine ⟨⌊r / b⌋.toNat, (snapWithHustle (r - ((⌊r / b⌋ : ℤ) : ℚ) * b) b).hours, ?_, ?_⟩
    · simp only
      rw [hc]
    · exact Or.inr (snap_hours_shape _ b hrempos)

/-- Claim C2 counterexample: at raw hours 20.5 (standard shift 8, max shift
12) the optimizer bills 20 hours — strictly less than the raw hours (hustle
snap-down), and 20 is neither one of the billing increments nor a multiple of
the maximum increment 12.  The claim as stated therefore fails. -/
theorem claim_C2_counterexample :
    ¬ ((41/2 : ℚ) ≤ (optimizeShifts (41/2) 8 12 1).hours ∧
       ((optimizeShifts (41/2) 8 12 1).hours ∈ BILLING_INCREMENTS ∨
        ∃ j : ℕ, (optimizeShifts (41/2) 8 12 1).hours = 12 * (j : ℚ))) := by
  have h20 : (optimizeShifts (41/2) 8 12 1).hours = 20 := by decide
  rw [h20]
  rintro ⟨hge, -⟩
  norm_num at hge

set_option maxRecDepth 4000 in
/-- Claim C2, amended: for every non-negative raw-hours value and positive
shift settings, the billed hours undercut the raw hours by at most the hustle
threshold (0.5), and decompose as a whole number of days at the winning shift
base plus a final amount that is zero, a billing increment, or a multiple of
the maximum increment 12. -/
theorem claim_C2_amended (rawHours stdShift maxShift : ℚ)
    (h0 : 0 ≤ rawHours) (hs : 0 < stdShift) (hm : 0 < maxShift) :
    rawHours - HUSTLE_THRESHOLD ≤ (optimizeShifts rawHours stdShift maxShift 1).hours ∧
    ∃ base ∈ [stdShift, maxShift], ∃ (k : ℕ) (s : ℚ),
      (optimizeShifts rawHours stdShift maxShift 1).hours = (k : ℚ) * base + s ∧
      (s = 0 ∨ s ∈ BILLING_INCREMENTS ∨ ∃ j : ℕ, s = 12 * (j : ℚ)) := by
  rw [show HUSTLE_THRESHOLD = 1/2 from rfl]
  rcases eq_or_lt_of_le h0 with hz | hrpos
  · rw [optimizeShifts, if_pos (le_of_eq hz.symm)]
    refine ⟨by simp only; linarith, stdShift, by simp, 0, 0, by simp, Or.inl rfl⟩
  · rw [optimizeShifts, if_neg (not_le.2 hrpos)]
    by_cases hms : maxShift ≠ stdShift
    · rw [if_pos hms,
        enforceMinDays_noop _ _ _ (buildCandidate_days_ge1 rawHours stdShift hs hrpos),
        enforceMinDays_noop _ _ _ (buildCandidate_days_ge1 rawHours maxShift hm hrpos)]
      by_cases hlt : (buildCandidate rawHours maxShift).hours <
          (buildCandidate rawHours stdShift).hours
      · rw [if_pos hlt]
        obtain ⟨k, s, hks, hshape⟩ := buildCandidate_shape rawHours maxShift hm hrpos
        exact ⟨buildCandidate_hours_ge rawHours maxShift hm hrpos,
          maxShift, by simp, k, s, hks, hshape⟩
      · rw [if_neg hlt]
        obtain ⟨k, s, hks, hshape⟩ := buildCandidate_shape rawHours stdShift hs hrpos
        exact ⟨buildCandidate_hours_ge rawHours stdShift hs hrpos,
          stdShift, by simp, k, s, hks, hshape⟩
    · rw [if_neg hms,
        enforceMinDays_noop _ _ _ (buildCandidate_days_ge1 rawHours stdShift hs hrpos)]
      obtain ⟨k, s, hks, hshape⟩ := buildCandidate_shape rawHours stdShift hs hrpos
      exact ⟨buildCandidate_hours_ge rawHours stdShift hs hrpos,
        stdShift, by simp, k, s, hks, hshape⟩

theorem claim_C2_amended_witness :
    ((0 : ℚ) ≤ 41/2 ∧ (0 : ℚ) < 8 ∧ (0 : ℚ) < 12) ∧
    ((41/2 : ℚ) - HUSTLE_THRESHOLD ≤ (optimizeShifts (41/2) 8 12 1).hours ∧
      ∃ base ∈ [(8 : ℚ), 12], ∃ (k : ℕ) (s : ℚ),
        (optimizeShifts (41/2) 8 12 1).hours = (k : ℚ) * base + s ∧
        (s = 0 ∨ s ∈ BILLING_INCREMENTS ∨ ∃ j : ℕ, s = 12 * (j : ℚ))) :=
  ⟨⟨by norm_num, by norm_num, by norm_num⟩,
    claim_C2_amended (41/2) 8 12 (by norm_num) (by norm_num) (by norm_num)⟩

/-- Claim C4: under positive quantity, rate and productivity factor (default
8h/12h shifts), the tiers order as conservative ≥ standard ≥ aggressive both
in raw duration and in optimized billed days. -/
theorem claim_C4 (grossQty prodPerDay productivityFactor : ℚ)
    (hq : 0 < grossQty) (hp : 0 < prodPerDay) (hf : 0 < productivityFactor) :
    ((calcThreeTier grossQty prodPerDay productivityFactor 8 12).standard.rawDays ≤
      (calcThreeTier grossQty prodPerDay productivityFactor 8 12).conservative.rawDays ∧
     (calcThreeTier grossQty prodPerDay productivityFactor 8 12).aggressive.rawDays ≤
      (calcThreeTier grossQty prodPerDay productivityFactor 8 12).standard.rawDays) ∧
    ((calcThreeTier grossQty prodPerDay productivityFactor 8 12).standard.optimized.days ≤
      (calcThreeTier grossQty prodPerDay productivityFactor 8 12).conservative.optimized.days ∧
     (calcThreeTier grossQty prodPerDay productivityFactor 8 12).aggressive.optimized.days ≤
      (calcThreeTier grossQty prodPerDay productivityFactor 8 12).standard.optimized.days) := by
  have hguard : ¬(grossQty = 0 ∨ prodPerDay = 0 ∨ prodPerDay ≤ 0) := by
    push_neg
    exact ⟨ne_of_gt hq, ne_of_gt hp, hp⟩
  rw [calcThreeTier, if_neg hguard]
  simp only [calcTier]
  have hpf : 0 < prodPerDay * productivityFactor := mul_pos hp hf
  have hdays : ∀ m1 m2 : ℚ, 0 < m1 → m1 ≤ m2 →
      grossQty / (prodPerDay * productivityFactor * m2) ≤
        grossQty / (prodPerDay * productivityFactor * m1) := by
    intro m1 m2 hm1 hm12
    have hm2 : 0 < m2 := lt_of_lt_of_le hm1 hm12
    rw [div_le_div_iff (by positivity) (by positivity)]
    have hmono : prodPerDay * productivityFactor * m1 ≤
        prodPerDay * productivityFactor * m2 :=
      mul_le_mul_of_nonneg_left hm12 (le_of_lt hpf)
    exact mul_le_mul_of_nonneg_left hmono (le_of_lt hq)
  have hrawpos : ∀ m : ℚ, 0 < m →
      0 < grossQty / (prodPerDay * productivityFactor * m) * 8 := by
    intro m hm
    positivity
  refine ⟨⟨?_, ?_⟩, ?_, ?_⟩
  · exact hdays (4/5) 1 (by norm_num) (by norm_num)
  · exact hdays 1 (6/5) (by norm_num) (by norm_num)
  · exact optimizeShifts_days_mono _ _ (hrawpos 1 (by norm_num))
      (by nlinarith [hdays (4/5) 1 (by norm_num : (0:ℚ) < 4/5) (by norm_num : (4:ℚ)/5 ≤ 1)])
  · exact optimizeShifts_days_mono _ _ (hrawpos (6/5) (by norm_num))
      (by nlinarith [hdays 1 (6/5) (by norm_num : (0:ℚ) < 1) (by norm_num : (1:ℚ) ≤ 6/5)])

theorem claim_C4_witness :
    ((0 : ℚ) < 100 ∧ (0 : ℚ) < 50 ∧ (0 : ℚ) < 1) ∧
    (((calcThreeTier 100 50 1 8 12).standard.rawDays ≤
       (calcThreeTier 100 50 1 8 12).conservative.rawDays ∧
      (calcThreeTier 100 50 1 8 12).aggressive.rawDays ≤
       (calcThreeTier 100 50 1 8 12).standard.rawDays) ∧
     ((calcThreeTier 100 50 1 8 12).standard.optimized.days ≤
       (calcThreeTier 100 50 1 8 12).conservative.optimized.days ∧
      (calcThreeTier 100 50 1 8 12).aggressive.optimized.days ≤
       (calcThreeTier 100 50 1 8 12).standard.optimized.days)) :=
  ⟨⟨by norm_num, by norm_num, by norm_num⟩,
    claim_C4 100 50 1 (by norm_num) (by norm_num) (by norm_num)⟩




/-- A fold whose step writes only at the stepped activity's id leaves other
ids untouched. -/
theorem foldl_step_untouched (step : RMap → Activity → RMap)
    (hne : ∀ m a j, j ≠ a.id → step m a j = m j) :
    ∀ (L : List Activity) (m : RMap) (j : ℕ),
      j ∉ L.map (·.id) → L.foldl step m j = m j := by
  intro L
  induction L with
  | nil => intro m j _; rfl
  | cons b L ih =>
    intro m j hj
    rw [List.map_cons, List.mem_cons] at hj
    push_neg at hj
    rw [List.foldl_cons, ih _ j hj.2, hne m b j hj.1]

/-- When ids are distinct and the step establishes `P` at its own id, the
fold establishes `P` at every processed activity. -/
theorem foldl_step_writes (step : RMap → Activity → RMap)
    (P : SchedEntry → Activity → Prop)
    (hne : ∀ m a j, j ≠ a.id → step m a j = m j)
    (hself : ∀ m a, P (step m a a.id) a) :
    ∀ (L : List Activity), (L.map (·.id)).Nodup →
      ∀ (m : RMap), ∀ a ∈ L, P ((L.foldl step m) a.id) a := by
  intro L
  induction L with
  | nil => intro _ m a ha; exact absurd ha (List.not_mem_nil a)
  | cons b L ih =>
    intro hnd m a ha
    rw [List.map_cons, List.nodup_cons] at hnd
    rw [List.foldl_cons]
    rcases List.mem_cons.1 ha with rfl | ha2
    · rw [foldl_step_untouched step hne L (step m a) a.id hnd.1]
      exact hself m a
    · exact ih hnd.2 (step m b) a ha2

/-- When ids are distinct and the step preserves `P` at its own id, the fold
preserves `P` at every processed activity. -/
theorem foldl_step_keeps (step : RMap → Activity → RMap)
    (P : SchedEntry → Activity → Prop)
    (hne : ∀ m a j, j ≠ a.id → step m a j = m j)
    (hstep : ∀ m a, P (m a.id) a → P ((step m a) a.id) a) :
    ∀ (L : List Activity), (L.map (·.id)).Nodup →
      ∀ (m : RMap), (∀ a ∈ L, P (m a.id) a) → ∀ a ∈ L, P ((L.foldl step m) a.id) a := by
  intro L
  induction L with
  | nil => intro _ m _ a ha; exact absurd ha (List.not_mem_nil a)
  | cons b L ih =>
    intro hnd m h0 a ha
    rw [List.map_cons, List.nodup_cons] at hnd
    rw [List.foldl_cons]
    rcases List.mem_cons.1 ha with rfl | ha2
    · rw [foldl_step_untouched step hne L (step m a) a.id hnd.1]
      exact hstep m a (h0 a (List.mem_cons_self _ _))
    · refine ih hnd.2 (step m b) (fun c hc => ?_) a ha2
      have hcb : c.id ≠ b.id := by
        intro hEq
        exact hnd.1 (hEq ▸ List.mem_map_of_mem (·.id) hc)
      rw [hne m b c.id hcb]
      exact h0 c (List.mem_cons_of_mem _ hc)

/-- A fold whose step leaves a projection of every entry unchanged leaves
that projection unchanged. -/
theorem foldl_step_proj {γ : Type _} (g : SchedEntry → γ) (step : RMap → Activity → RMap)
    (h : ∀ m a j, g ((step m a) j) = g (m j)) :
    ∀ (L : List Activity) (m : RMap) (j : ℕ), g ((L.foldl step m) j) = g (m j) := by
  intro L
  induction L with
  | nil => intro m j; rfl
  | cons b L ih =>
    intro m j
    rw [List.foldl_cons, ih, h]

theorem forwardStep_ne (keys : List ℕ) (m : RMap) (a : Activity) (j : ℕ)
    (h : j ≠ a.id) : forwardStep keys m a j = m j := by
  simp only [forwardStep, RMap.set, if_neg h]

theorem forwardStep_self (keys : List ℕ) (m : RMap) (a : Activity) :
    ((forwardStep keys m a) a.id).earlyFinish =
      ((forwardStep keys m a) a.id).earlyStart + a.duration := by
  simp [forwardStep, RMap.set]

theorem backwardInitStep_ne (pe : ℚ) (m : RMap) (a : Activity) (j : ℕ) (h : j ≠ a.id) :
    RMap.set m a.id { m a.id with lateFinish := pe, lateStart := pe - a.duration } j = m j := by
  simp only [RMap.set, if_neg h]

theorem backwardInitStep_self (pe : ℚ) (m : RMap) (a : Activity) :
    (RMap.set m a.id { m a.id with lateFinish := pe, lateStart := pe - a.duration } a.id).lateFinish =
      (RMap.set m a.id { m a.id with lateFinish := pe, lateStart := pe - a.duration } a.id).lateStart +
        a.duration := by
  simp [RMap.set]

theorem backwardInitStep_proj (pe : ℚ) (m : RMap) (a : Activity) (j : ℕ) :
    ((RMap.set m a.id { m a.id with lateFinish := pe, lateStart := pe - a.duration } j).earlyStart,
     (RMap.set m a.id { m a.id with lateFinish := pe, lateStart := pe - a.duration } j).earlyFinish) =
      ((m j).earlyStart, (m j).earlyFinish) := by
  by_cases hj : j = a.id
  · subst hj
    simp [RMap.set]
  · simp [RMap.set, if_neg hj]

theorem backwardStep_ne (acts : List Activity) (pe : ℚ) (m : RMap) (a : Activity)
    (j : ℕ) (h : j ≠ a.id) : backwardStep acts pe m a j = m j := by
  simp only [backwardStep]
  split_ifs
  · rfl
  · simp only [RMap.set, if_neg h]

theorem backwardStep_keeps (acts : List Activity) (pe : ℚ) (m : RMap) (a : Activity)
    (hP : (m a.id).lateFinish = (m a.id).lateStart + a.duration) :
    ((backwardStep acts pe m a) a.id).lateFinish =
      ((backwardStep acts pe m a) a.id).lateStart + a.duration := by
  simp only [backwardStep]
  split_ifs
  · exact hP
  · simp [RMap.set]

theorem backwardStep_proj (acts : List Activity) (pe : ℚ) (m : RMap) (a : Activity)
    (j : ℕ) :
    (((backwardStep acts pe m a) j).earlyStart, ((backwardStep acts pe m a) j).earlyFinish) =
      ((m j).earlyStart, (m j).earlyFinish) := by
  simp only [backwardStep]
  split_ifs
  · rfl
  · by_cases hj : j = a.id
    · subst hj
      simp [RMap.set]
    · simp [RMap.set, if_neg hj]

theorem floatStep_ne (acts : List Activity) (pd : ℚ) (m : RMap) (a : Activity)
    (j : ℕ) (h : j ≠ a.id) : floatStep acts pd m a j = m j := by
  simp only [floatStep, RMap.set, if_neg h]

theorem floatStep_self (acts : List Activity) (pd : ℚ) (m : RMap) (a : Activity) :
    ((floatStep acts pd m a) a.id).totalFloat =
      ((floatStep acts pd m a) a.id).lateStart - ((floatStep acts pd m a) a.id).earlyStart := by
  simp [floatStep, RMap.set]

theorem floatStep_proj (acts : List Activity) (pd : ℚ) (m : RMap) (a : Activity) (j : ℕ) :
    (((floatStep acts pd m a) j).earlyStart, ((floatStep acts pd m a) j).earlyFinish,
     ((floatStep acts pd m a) j).lateStart, ((floatStep acts pd m a) j).lateFinish) =
      ((m j).earlyStart, (m j).earlyFinish, (m j).lateStart, (m j).lateFinish) := by
  by_cases hj : j = a.id
  · subst hj
    simp [floatStep, RMap.set]
  · simp [floatStep, RMap.set, if_neg hj]



/-- Decrementing one successor `x` (enqueueing it when its degree hits zero)
preserves the Kahn invariant. -/
theorem kahnStep1_inv (ids seen : List ℕ) (deg : ℕ → ℤ) (queue : List ℕ) (x : ℕ)
    (hx : x ∈ ids) (hinv : KahnInv ids deg seen queue) :
    KahnInv ids (fun j => if j = x then deg x - 1 else deg j) seen
      (if deg x - 1 = 0 then queue ++ [x] else queue) := by
  obtain ⟨hnd, hsub, hpos, hnonpos⟩ := hinv
  by_cases hin : x ∈ seen ++ queue
  · have hd : deg x ≤ 0 := hnonpos x hin
    have hne0 : ¬ (deg x - 1 = 0) := by omega
    rw [if_neg hne0]
    refine ⟨hnd, hsub, ?_, ?_⟩
    · intro j hj hjn
      show 0 < if j = x then deg x - 1 else deg j
      by_cases hjx : j = x
      · exact absurd (hjx ▸ hin) hjn
      · rw [if_neg hjx]
        exact hpos j hj hjn
    · intro j hj
      show (if j = x then deg x - 1 else deg j) ≤ 0
      by_cases hjx : j = x
      · rw [if_pos hjx]
        omega
      · rw [if_neg hjx]
        exact hnonpos j hj
  · have hd : 0 < deg x := hpos x hx hin
    by_cases hz : deg x - 1 = 0
    · rw [if_pos hz]
      refine ⟨?_, ?_, ?_, ?_⟩
      · rw [← List.append_assoc]
        refine List.nodup_append.2 ⟨hnd, List.nodup_singleton x, fun y hy hyx => ?_⟩
        rw [List.mem_singleton] at hyx
        exact hin (hyx ▸ hy)
      · intro j hj
        rw [← List.append_assoc] at hj
        rcases List.mem_append.1 hj with hl | hr
        · exact hsub j hl
        · rw [List.mem_singleton] at hr
          exact hr ▸ hx
      · intro j hj hjn
        rw [← List.append_assoc] at hjn
        have hjn2 : j ∉ seen ++ queue := fun hc => hjn (List.mem_append_left _ hc)
        have hjx : ¬ (j = x) := fun hEq => hjn (List.mem_append_right _ (by simp [hEq]))
        show 0 < if j = x then deg x - 1 else deg j
        rw [if_neg hjx]
        exact hpos j hj hjn2
      · intro j hj
        rw [← List.append_assoc] at hj
        show (if j = x then deg x - 1 else deg j) ≤ 0
        by_cases hjx : j = x
        · rw [if_pos hjx]
          omega
        · rw [if_neg hjx]
          rcases List.mem_append.1 hj with hl | hr
          · exact hnonpos j hl
          · rw [List.mem_singleton] at hr
            exact absurd hr hjx
    · rw [if_neg hz]
      refine ⟨hnd, hsub, ?_, ?_⟩
      · intro j hj hjn
        show 0 < if j = x then deg x - 1 else deg j
        by_cases hjx : j = x
        · subst hjx
          rw [if_pos rfl]
          omega
        · rw [if_neg hjx]
          exact hpos j hj hjn
      · intro j hj
        show (if j = x then deg x - 1 else deg j) ≤ 0
        by_cases hjx : j = x
        · exact absurd (hjx ▸ hj) hin
        · rw [if_neg hjx]
          exact hnonpos j hj

/-- The successor fold inside `kahnStep` preserves the Kahn invariant when
every decremented id is a known activity id. -/
theorem kahnFold_inv (ids : List ℕ) (seen : List ℕ) :
    ∀ (L : List ℕ) (st : (ℕ → ℤ) × List ℕ),
      (∀ j ∈ L, j ∈ ids) → KahnInv ids st.1 seen st.2 →
      KahnInv ids
        (L.foldl (fun (st : (ℕ → ℤ) × List ℕ) succId =>
          let nd := st.1 succId - 1
          (fun j => if j = succId then nd else st.1 j,
           if nd = 0 then st.2 ++ [succId] else st.2)) st).1 seen
        (L.foldl (fun (st : (ℕ → ℤ) × List ℕ) succId =>
          let nd := st.1 succId - 1
          (fun j => if j = succId then nd else st.1 j,
           if nd = 0 then st.2 ++ [succId] else st.2)) st).2 := by
  intro L
  induction L with
  | nil => intro st _ h; exact h
  | cons x L ih =>
    intro st hmem hinv
    rw [List.foldl_cons]
    exact ih _ (fun j hj => hmem j (List.mem_cons_of_mem _ hj))
      (kahnStep1_inv ids seen st.1 st.2 x (hmem x (List.mem_cons_self _ _)) hinv)

/-- The Kahn loop, started in an invariant state, emits distinct known ids
(relative to everything already seen). -/
theorem kahnLoop_out (ids : List ℕ) (adj : ℕ → List ℕ)
    (hadj : ∀ k j, j ∈ adj k → j ∈ ids) :
    ∀ (fuel : ℕ) (deg : ℕ → ℤ) (queue seen : List ℕ),
      KahnInv ids deg seen queue →
      (seen ++ kahnLoop adj fuel deg queue).Nodup ∧
        ∀ j ∈ kahnLoop adj fuel deg queue, j ∈ ids := by
  intro fuel
  induction fuel with
  | zero =>
    intro deg queue seen hinv
    rw [kahnLoop]
    exact ⟨by simpa using (List.nodup_append.1 hinv.1).1, by simp⟩
  | succ fuel ih =>
    intro deg queue seen hinv
    cases queue with
    | nil =>
      rw [kahnLoop]
      exact ⟨by simpa using (List.nodup_append.1 hinv.1).1, by simp⟩
    | cons id rest =>
      rw [kahnLoop]
      have heq : seen ++ id :: rest = (seen ++ [id]) ++ rest := by simp
      have hinv2 : KahnInv ids deg (seen ++ [id]) rest :=
        ⟨heq ▸ hinv.1, heq ▸ hinv.2.1, heq ▸ hinv.2.2.1, heq ▸ hinv.2.2.2⟩
      have hinv3 := kahnFold_inv ids (seen ++ [id]) (adj id) (deg, rest)
        (fun j hj => hadj id j hj) hinv2
      obtain ⟨hn, hs⟩ := ih (kahnStep adj id (deg, rest)).1 (kahnStep adj id (deg, rest)).2
        (seen ++ [id]) hinv3
      constructor
      · have heq2 : seen ++ id :: kahnLoop adj fuel (kahnStep adj id (deg, rest)).1
            (kahnStep adj id (deg, rest)).2 =
            (seen ++ [id]) ++ kahnLoop adj fuel (kahnStep adj id (deg, rest)).1
              (kahnStep adj id (deg, rest)).2 := by simp
        rw [heq2]
        exact hn
      · intro j hj
        rcases List.mem_cons.1 hj with rfl | hj2
        · exact hinv.2.1 j (by simp)
        · exact hs j hj2



/-- Both components of `buildInOut` are well-formed: in-degrees are
non-negative and adjacency lists hold only known activity ids. -/
theorem buildInOut_inv (acts : List Activity) :
    (∀ j, 0 ≤ (buildInOut acts).1 j) ∧
    (∀ k j, j ∈ (buildInOut acts).2 k → j ∈ actIds acts) := by
  unfold buildInOut
  refine foldl_inv
    (P := fun st : (ℕ → ℤ) × (ℕ → List ℕ) =>
      (∀ j, 0 ≤ st.1 j) ∧ (∀ k j, j ∈ st.2 k → j ∈ actIds acts)) _ acts _ ?_ ?_
  · exact ⟨fun j => le_refl 0, fun k j hj => absurd hj (List.not_mem_nil j)⟩
  · intro st a ha hst
    refine foldl_inv
      (P := fun st : (ℕ → ℤ) × (ℕ → List ℕ) =>
        (∀ j, 0 ≤ st.1 j) ∧ (∀ k j, j ∈ st.2 k → j ∈ actIds acts)) _ a.dependencies _ hst ?_
    intro st2 dep _ hst2
    by_cases hp : dep.predecessorId ∈ actIds acts
    · rw [if_pos hp]
      constructor
      · intro j
        show (0 : ℤ) ≤ if j = a.id then st2.1 j + 1 else st2.1 j
        by_cases hj : j = a.id
        · rw [if_pos hj]
          have := hst2.1 j
          omega
        · rw [if_neg hj]
          exact hst2.1 j
      · intro k j hj
        have hj2 : j ∈ (if k = dep.predecessorId then st2.2 k ++ [a.id] else st2.2 k) := hj
        by_cases hk : k = dep.predecessorId
        · rw [if_pos hk] at hj2
          rcases List.mem_append.1 hj2 with hl | hr
          · exact hst2.2 k j hl
          · rw [List.mem_singleton] at hr
            exact hr ▸ List.mem_map_of_mem (·.id) ha
        · rw [if_neg hk] at hj2
          exact hst2.2 k j hj2
    · rw [if_neg hp]
      exact hst2

/-- A successful `activityMap.get` returns a member of the list carrying the
looked-up id. -/
theorem lookupAct_mem (acts : List Activity) (id : ℕ) (a : Activity)
    (h : lookupAct acts id = some a) : a ∈ acts ∧ a.id = id := by
  unfold lookupAct at h
  refine ⟨List.mem_reverse.1 (List.mem_of_find?_eq_some h), ?_⟩
  have := List.find?_some h
  simpa using this

/-- Every known activity id is found by `activityMap.get`. -/
theorem lookupAct_isSome (acts : List Activity) (id : ℕ) (h : id ∈ actIds acts) :
    ∃ a, lookupAct acts id = some a := by
  unfold lookupAct
  rw [← Option.isSome_iff_exists, List.find?_isSome]
  have h2 : id ∈ acts.map (fun x => x.id) := h
  obtain ⟨a, ha, hid⟩ := List.mem_map.1 h2
  exact ⟨a, List.mem_reverse.2 ha, by simp [hid]⟩

/-- With distinct activity ids, an id determines the activity. -/
theorem actIds_inj (acts : List Activity) (h : (actIds acts).Nodup)
    (a b : Activity) (ha : a ∈ acts) (hb : b ∈ acts) (hid : a.id = b.id) : a = b := by
  have h2 : (acts.map (fun x => x.id)).Nodup := h
  exact List.inj_on_of_nodup_map h2 ha hb hid

/-- Resolving a list of known ids through `activityMap.get` and projecting
ids back is the identity. -/
theorem sortedIds_eq (acts : List Activity) :
    ∀ (popped : List ℕ), (∀ id ∈ popped, id ∈ actIds acts) →
      (popped.filterMap (lookupAct acts)).map (·.id) = popped := by
  intro popped
  induction popped with
  | nil => simp
  | cons x L ih =>
    intro h
    obtain ⟨a, ha⟩ := lookupAct_isSome acts x (h x (List.mem_cons_self _ _))
    simp only [List.filterMap_cons, ha, List.map_cons]
    rw [(lookupAct_mem acts x a ha).2, ih (fun id hid => h id (List.mem_cons_of_mem _ hid))]

/-- The topological sort (Kahn's algorithm with fallback to input order)
always returns the activities without duplication or loss, given distinct
ids. -/
theorem topologicalSort_good (acts : List Activity) (h : (actIds acts).Nodup) :
    ((topologicalSort acts).map (·.id)).Nodup ∧
      (∀ a ∈ acts, a ∈ topologicalSort acts) ∧
      (∀ a ∈ topologicalSort acts, a ∈ acts) := by
  have hdegnn := (buildInOut_inv acts).1
  have hadj := (buildInOut_inv acts).2
  have hinv0 : KahnInv (actIds acts) (buildInOut acts).1 []
      ((actIds acts).filter (fun id => (buildInOut acts).1 id == 0)) := by
    refine ⟨?_, ?_, ?_, ?_⟩
    · simpa using h.filter _
    · intro j hj
      rw [List.nil_append] at hj
      exact List.mem_of_mem_filter hj
    · intro j hj hjn
      rw [List.nil_append] at hjn
      have hne : ¬ (((buildInOut acts).1 j == 0) = true) :=
        fun hc => hjn (List.mem_filter.2 ⟨hj, hc⟩)
      have hne2 : (buildInOut acts).1 j ≠ 0 := by
        intro hc
        exact hne (by simp [hc])
      have := hdegnn j
      omega
    · intro j hj
      rw [List.nil_append] at hj
      have hz := (List.mem_filter.1 hj).2
      have hz2 : (buildInOut acts).1 j = 0 := by simpa using hz
      omega
  have hkahn := kahnLoop_out (actIds acts) (buildInOut acts).2 hadj acts.length
    (buildInOut acts).1 ((actIds acts).filter (fun id => (buildInOut acts).1 id == 0)) [] hinv0
  rw [List.nil_append] at hkahn
  obtain ⟨hnp, hsp⟩ := hkahn
  obtain ⟨popped, hpop⟩ : ∃ p, p = kahnLoop (buildInOut acts).2 acts.length (buildInOut acts).1
      ((actIds acts).filter (fun id => (buildInOut acts).1 id == 0)) := ⟨_, rfl⟩
  rw [← hpop] at hnp hsp
  have htopo : topologicalSort acts =
      (if (popped.filterMap (lookupAct acts)).length = acts.length
       then popped.filterMap (lookupAct acts) else acts) := by
    rw [hpop]
    rfl
  by_cases hlen : (popped.filterMap (lookupAct acts)).length = acts.length
  · rw [htopo, if_pos hlen]
    have hmapids : (popped.filterMap (lookupAct acts)).map (·.id) = popped :=
      sortedIds_eq acts popped hsp
    have hlen2 : (actIds acts).length ≤ popped.length := by
      have h1 : ((popped.filterMap (lookupAct acts)).map (fun a => a.id)).length =
          (popped.filterMap (lookupAct acts)).length := List.length_map _ _
      have h2 : (actIds acts).length = acts.length := List.length_map _ _
      rw [hmapids] at h1
      omega
    have hperm : popped.Perm (actIds acts) :=
      (List.Nodup.subperm hnp hsp).perm_of_length_le hlen2
    refine ⟨?_, ?_, ?_⟩
    · rw [hmapids]
      exact hnp
    · intro a ha
      have hida : a.id ∈ popped := hperm.mem_iff.2 (List.mem_map_of_mem (·.id) ha)
      obtain ⟨b, hb⟩ := lookupAct_isSome acts a.id (List.mem_map_of_mem (·.id) ha)
      have hba := lookupAct_mem acts a.id b hb
      have hbeq : b = a := actIds_inj acts h b a hba.1 ha hba.2
      rw [hbeq] at hb
      exact List.mem_filterMap.2 ⟨a.id, hida, hb⟩
    · intro a ha
      obtain ⟨id, _, hsome⟩ := List.mem_filterMap.1 ha
      exact (lookupAct_mem acts id a hsome).1
  · rw [htopo, if_neg hlen]
    exact ⟨h, fun a ha => ha, fun a ha => ha⟩



/-- After a full `Scheduler.run()` on activities with distinct ids, every
activity's entry satisfies TF = LS − ES, EF = ES + duration and
LF = LS + duration. -/
theorem schedulerRun_props (acts : List Activity) (hids : (actIds acts).Nodup)
    (a : Activity) (ha : a ∈ acts) :
    (schedulerRun acts a.id).totalFloat =
      (schedulerRun acts a.id).lateStart - (schedulerRun acts a.id).earlyStart ∧
    (schedulerRun acts a.id).earlyFinish = (schedulerRun acts a.id).earlyStart + a.duration ∧
    (schedulerRun acts a.id).lateFinish = (schedulerRun acts a.id).lateStart + a.duration := by
  obtain ⟨htn, htmem, htsub⟩ := topologicalSort_good acts hids
  have hne : acts.isEmpty = false := by
    cases acts with
    | nil => exact absurd ha (List.not_mem_nil a)
    | cons b L => rfl
  have hrun : schedulerRun acts =
      calculateFloat acts (backwardPass acts (forwardPass acts (fun _ => SchedEntry.init))) := by
    simp [schedulerRun, hne]
  rw [hrun]
  set m1 : RMap := forwardPass acts (fun _ => SchedEntry.init) with hm1
  set m2 : RMap := backwardPass acts m1 with hm2
  set pe : ℚ := projectDuration acts m1 with hpe
  set pd : ℚ := projectDuration acts m2 with hpd
  -- forward pass: EF = ES + duration everywhere
  have hEF : ∀ b ∈ acts, (m1 b.id).earlyFinish = (m1 b.id).earlyStart + b.duration := by
    intro b hb
    exact foldl_step_writes (forwardStep (actIds acts))
      (fun e c => e.earlyFinish = e.earlyStart + c.duration)
      (forwardStep_ne (actIds acts)) (forwardStep_self (actIds acts))
      (topologicalSort acts) htn (fun _ => SchedEntry.init) b (htmem b hb)
  -- backward pass: LF = LS + duration everywhere
  have hLF : ∀ b ∈ acts, (m2 b.id).lateFinish = (m2 b.id).lateStart + b.duration := by
    intro b hb
    have hinit : ∀ c ∈ acts, ((backwardInit pe m1 acts) c.id).lateFinish =
        ((backwardInit pe m1 acts) c.id).lateStart + c.duration := by
      intro c hc
      exact foldl_step_writes
        (fun m d => RMap.set m d.id { m d.id with lateFinish := pe, lateStart := pe - d.duration })
        (fun e d => e.lateFinish = e.lateStart + d.duration)
        (backwardInitStep_ne pe) (backwardInitStep_self pe)
        acts hids m1 c hc
    have hrev_nd : (((topologicalSort acts).reverse).map (·.id)).Nodup := by
      rw [List.map_reverse]
      exact List.nodup_reverse.2 htn
    exact foldl_step_keeps (backwardStep acts pe)
      (fun e d => e.lateFinish = e.lateStart + d.duration)
      (backwardStep_ne acts pe)
      (fun m c hc => backwardStep_keeps acts pe m c hc)
      ((topologicalSort acts).reverse) hrev_nd (backwardInit pe m1 acts)
      (fun c hc => hinit c (htsub c (List.mem_reverse.1 hc)))
      b (List.mem_reverse.2 (htmem b hb))
  -- the backward pass never writes early dates
  have hproj2 : ∀ j, ((m2 j).earlyStart, (m2 j).earlyFinish) =
      ((m1 j).earlyStart, (m1 j).earlyFinish) := by
    intro j
    have h1 := foldl_step_proj (fun e => (e.earlyStart, e.earlyFinish))
      (backwardStep acts pe) (backwardStep_proj acts pe)
      ((topologicalSort acts).reverse) (backwardInit pe m1 acts) j
    have h2 := foldl_step_proj (fun e => (e.earlyStart, e.earlyFinish))
      (fun m d => RMap.set m d.id { m d.id with lateFinish := pe, lateStart := pe - d.duration })
      (backwardInitStep_proj pe) acts m1 j
    exact h1.trans h2
  -- the float pass never writes dates at all
  have hproj3 : ∀ j,
      ((calculateFloat acts m2 j).earlyStart, (calculateFloat acts m2 j).earlyFinish,
       (calculateFloat acts m2 j).lateStart, (calculateFloat acts m2 j).lateFinish) =
        ((m2 j).earlyStart, (m2 j).earlyFinish, (m2 j).lateStart, (m2 j).lateFinish) := by
    intro j
    exact foldl_step_proj (fun e => (e.earlyStart, e.earlyFinish, e.lateStart, e.lateFinish))
      (floatStep acts pd) (floatStep_proj acts pd) acts m2 j
  -- the float pass writes TF = LS − ES at every activity
  have hTF : ∀ b ∈ acts, (calculateFloat acts m2 b.id).totalFloat =
      (calculateFloat acts m2 b.id).lateStart - (calculateFloat acts m2 b.id).earlyStart := by
    intro b hb
    exact foldl_step_writes (floatStep acts pd)
      (fun e _ => e.totalFloat = e.lateStart - e.earlyStart)
      (floatStep_ne acts pd)
      (fun m c => floatStep_self acts pd m c)
      acts hids m2 b hb
  have hp3 := hproj3 a.id
  simp only [Prod.mk.injEq] at hp3
  obtain ⟨hes3, hef3, hls3, hlf3⟩ := hp3
  have hp2 := hproj2 a.id
  simp only [Prod.mk.injEq] at hp2
  obtain ⟨hes2, hef2⟩ := hp2
  refine ⟨hTF a ha, ?_, ?_⟩
  · rw [hef3, hes3, hef2, hes2]
    exact hEF a ha
  · rw [hlf3, hls3]
    exact hLF a ha

/-- Claim C3: for every activity scheduled by the Scheduler (any dependency
graph, any dependency types and lags; activity ids distinct, as the JS `Map`
keying presupposes), the computed total float equals late start minus early
start, and also equals late finish minus early finish (exactly: the ℚ model
has no rounding). -/
theorem claim_C3 (acts : List Activity) (hids : (actIds acts).Nodup)
    (a : Activity) (ha : a ∈ acts) :
    (schedulerRun acts a.id).totalFloat =
      (schedulerRun acts a.id).lateStart - (schedulerRun acts a.id).earlyStart ∧
    (schedulerRun acts a.id).totalFloat =
      (schedulerRun acts a.id).lateFinish - (schedulerRun acts a.id).earlyFinish := by
  obtain ⟨h1, h2, h3⟩ := schedulerRun_props acts hids a ha
  refine ⟨h1, ?_⟩
  rw [h1, h2, h3]
  ring

/-- Witness for C3: on the concrete three-activity fixture, activity 3's
total float equals both late−early differences. -/
theorem claim_C3_witness :
    (schedulerRun chainParallelActs (Activity.id ⟨3, 4, []⟩)).totalFloat =
      (schedulerRun chainParallelActs (Activity.id ⟨3, 4, []⟩)).lateStart -
        (schedulerRun chainParallelActs (Activity.id ⟨3, 4, []⟩)).earlyStart ∧
    (schedulerRun chainParallelActs (Activity.id ⟨3, 4, []⟩)).totalFloat =
      (schedulerRun chainParallelActs (Activity.id ⟨3, 4, []⟩)).lateFinish -
        (schedulerRun chainParallelActs (Activity.id ⟨3, 4, []⟩)).earlyFinish :=
  claim_C3 chainParallelActs (by decide) ⟨3, 4, []⟩ (by decide)


/-- The patch-loop fold, characterized: it maps the per-activity patch over
the list and adds the per-activity trucking deltas to the running totals. -/
theorem patchResults_fold (est : ℕ → Option EstActivity) (truckingRate : ℚ) :
    ∀ (L acc : List ActivityResult) (x y : ℚ),
      L.foldl (fun (st : List ActivityResult × ℚ × ℚ) ar =>
        let ar2 := patchActivity est truckingRate ar
        (st.1 ++ [ar2],
         st.2.1 + (ar2.truckingCost - ar.truckingCost),
         st.2.2 + (ar2.truckHours - ar.truckHours))) (acc, x, y) =
      (acc ++ L.map (patchActivity est truckingRate),
       x + (L.map (fun ar =>
         (patchActivity est truckingRate ar).truckingCost - ar.truckingCost)).sum,
       y + (L.map (fun ar =>
         (patchActivity est truckingRate ar).truckHours - ar.truckHours)).sum) := by
  intro L
  induction L with
  | nil => intro acc x y; simp
  | cons a L ih =>
    intro acc x y
    simp only [List.foldl_cons, List.map_cons, List.sum_cons, ih, Prod.mk.injEq]
    refine ⟨by simp, by ring, by ring⟩

theorem patchResults_eq (est : ℕ → Option EstActivity) (truckingRate : ℚ)
    (res : CalcResults) :
    patchResults est truckingRate res =
      ⟨res.activities.map (patchActivity est truckingRate),
       res.totalTruckingCost + (res.activities.map (fun ar =>
         (patchActivity est truckingRate ar).truckingCost - ar.truckingCost)).sum,
       res.totalTruckHours + (res.activities.map (fun ar =>
         (patchActivity est truckingRate ar).truckHours - ar.truckHours)).sum,
       (res.activities.map (patchActivity est truckingRate)).foldl (fun sum ar =>
         sum + ar.laborCost + ar.equipmentCost + ar.materialCost +
           ar.mobilizationCost + ar.truckingCost) 0⟩ := by
  unfold patchResults
  rw [patchResults_fold]
  simp

/-- Claim C5: the trucking-override patch step is idempotent — applying it a
second time to already-patched results changes nothing: not the per-activity
trucking cost, truck hours or direct cost, nor the total direct cost or the
trucking totals (the deltas of the second pass are all zero and
`directCostTotal` is re-derived from the unchanged activity list). -/
theorem claim_C5 (est : ℕ → Option EstActivity) (truckingRate : ℚ) (res : CalcResults) :
    patchResults est truckingRate (patchResults est truckingRate res) =
      patchResults est truckingRate res := by
  rw [patchResults_eq est truckingRate res, patchResults_eq]
  have hmap : (res.activities.map (patchActivity est truckingRate)).map
      (patchActivity est truckingRate) = res.activities.map (patchActivity est truckingRate) := by
    rw [List.map_map]
    exact List.map_congr_left (fun a _ => patchActivity_idem est truckingRate a)
  have hz : ∀ g : ActivityResult → ℚ,
      ((res.activities.map (patchActivity est truckingRate)).map (fun ar =>
        g (patchActivity est truckingRate ar) - g ar)).sum = 0 := by
    intro g
    apply List.sum_eq_zero
    intro x hx
    simp only [List.map_map, List.mem_map, Function.comp] at hx
    obtain ⟨a, -, rfl⟩ := hx
    rw [patchActivity_idem]
    ring
  simp only [CalcResults.mk.injEq, hmap, hz]
  refine ⟨trivial, by ring, by ring, trivial⟩

end Paving
